import Mathlib

/-!
Verification development for the `textalignsynth` package.

Embedded components (shallow embedding over `ℝ` / `EReal`):
* `loudness.py` : `LoudnessMeter.measure_loudness`, `_integrated_loudness`,
  `_momentary_loudness`, `valid_audio` (BS.1770 gated loudness).
* `pipeline.py` : `Commenter.__call__`, `_modify_comment_duration`,
  `_get_comment_start` (comment placement and mixing engine).

Modelling conventions:
* Python/numpy floats are modelled as real numbers; float `-inf` (from
  `np.log10(0.0)`) is modelled by `(⊥ : EReal)`, and the float `NaN` produced
  by `np.mean([])` is modelled by `Option.none` at the single place it can
  arise (the relative threshold `Gamma_r`); an IEEE comparison against `NaN`
  is `False`, which the model reproduces explicitly.
* numpy arrays are stored channel-major (`cols`): a `(samples, ch)` array is
  the list of its channel columns, a 1-D array is a single column with
  `twoD = false`.  `np.reshape(x, (n, 1))` is therefore the identity on
  `cols` and only relevant to the `ndim` flag.
* Python `round` is round-half-to-even (`pyround`), `int()` truncates toward
  zero (`pytrunc`), list/array slicing follows Python semantics including
  negative indices and clamping (`pySliceResolve`).
* The K-weighting IIR stages are created by the external `pyloudnorm`
  package (`IIRfilter(...)`); the repository only fixes their design
  parameters.  The embedding keeps the meter parametric in its list of
  biquad stages (`List Biquad`), each applied as scipy's `lfilter`
  (direct-form-II-transposed difference equation) followed by the
  passband-gain multiplication, exactly as `IIRfilter.apply_filter` does.
* External collaborators of the placement engine (TTS synthesis, silence
  trimming, time-scale modification, resampling) are opaque function
  parameters, mirroring the spec's collaborator contracts.
-/

namespace TextAlignSynth

/-- Errors raised by the embedded code.  `validation` models the
`ValueError`s of `valid_audio` (spec: ValidationError), `config` models the
`AssertionError` of `_modify_comment_duration` (spec: ConfigError),
`broadcast` models a numpy shape-mismatch `ValueError`, `padNeg` models the
`ValueError` numpy raises for a negative `np.pad` width, and `typeErr`
models a Python `TypeError`. -/
inductive Err where
  | validation
  | config
  | broadcast
  | padNeg
  | typeErr
  deriving DecidableEq, Repr

open Classical in
/-- Python `round` (round half to even), as applied to an exact real. -/
noncomputable def pyround (x : ℝ) : ℤ :=
  if x - ⌊x⌋ = 1 / 2 then (if 2 ∣ ⌊x⌋ then ⌊x⌋ else ⌊x⌋ + 1) else round x

open Classical in
/-- Python `int()` on a float: truncation toward zero. -/
noncomputable def pytrunc (x : ℝ) : ℤ :=
  if 0 ≤ x then ⌊x⌋ else -⌊-x⌋

/-- A list of `n` zero samples (`np.zeros(n)` / zero padding). -/
def zeros (n : ℕ) : List ℝ := List.replicate n 0

/-- Resolution of a Python slice endpoint against a sequence of length `L`:
negative indices count from the end, and both ends are clamped to `[0, L]`. -/
def pySliceResolve (i : ℤ) (L : ℕ) : ℕ :=
  if i < 0 then ((L : ℤ) + i).toNat else min i.toNat L

/-- Python slice `xs[a:b]` with integer endpoints. -/
def pySlice (xs : List ℝ) (a b : ℤ) : List ℝ :=
  let ra := pySliceResolve a xs.length
  let rb := pySliceResolve b xs.length
  ((xs.drop ra).take (rb - ra))

/-- numpy in-place `xs[a:b] += c`: the slice and `c` must broadcast
(equal lengths, or `c` of length 1); otherwise a `ValueError`. -/
def sliceAddInto (xs : List ℝ) (a b : ℤ) (c : List ℝ) : Except Err (List ℝ) :=
  let ra := pySliceResolve a xs.length
  let rb := pySliceResolve b xs.length
  let m := rb - ra
  if m = c.length then
    .ok (xs.take ra ++ List.zipWith (· + ·) ((xs.drop ra).take m) c ++ xs.drop (ra + m))
  else if c.length = 1 then
    .ok (xs.take ra ++ ((xs.drop ra).take m).map (· + c.headI) ++ xs.drop (ra + m))
  else
    .error .broadcast

/-- `np.mean` of a list (division by zero, i.e. `NaN`, is handled by the
callers, which model `np.mean([])` explicitly). -/
noncomputable def npMean (l : List ℝ) : ℝ := l.sum / l.length

/-- One second-order IIR stage, as built by the external
`pyloudnorm.IIRfilter`: normalized transfer-function coefficients
(`b0, b1, b2, a1, a2`, with `a0 = 1`) plus the passband gain that
`apply_filter` multiplies onto scipy's `lfilter` output.  The repository
fixes only the design parameters (gain, Q, centre frequency); the
coefficient formulas live in the external package, so the stages are kept
as data here. -/
structure Biquad where
  g : ℝ
  b0 : ℝ
  b1 : ℝ
  b2 : ℝ
  a1 : ℝ
  a2 : ℝ

/-- scipy `lfilter` for a biquad: direct-form-II-transposed difference
equation with two state registers, zero initial state. -/
def biquadRun (f : Biquad) : List ℝ → ℝ → ℝ → List ℝ
  | [], _, _ => []
  | x :: xs, s1, s2 =>
    let y := f.b0 * x + s1
    y :: biquadRun f xs (f.b1 * x - f.a1 * y + s2) (f.b2 * x - f.a2 * y)

/-- `IIRfilter.apply_filter`: `passband_gain * lfilter(b, a, data)`. -/
def biquadApply (f : Biquad) (xs : List ℝ) : List ℝ :=
  (biquadRun f xs 0 0).map (fun y => f.g * y)

/-- The cascade of filter stages of a meter applied to one channel
(`for filter_class, filter_stage in self._filters.items(): ...`). -/
def applyFilters (fs : List Biquad) (xs : List ℝ) : List ℝ :=
  fs.foldl (fun ys f => biquadApply f ys) xs

/-- A numpy audio array as consumed by `loudness.py`: dtype floatness flag,
dimensionality flag (`ndim == 2`?), and the channel columns (a 1-D array is
a single column). -/
structure NpAudio where
  isFloat : Bool
  twoD : Bool
  cols : List (List ℝ)

/-- A 1-D (mono) float array. -/
def monoNp (xs : List ℝ) : NpAudio := ⟨true, false, [xs]⟩

/-- `data.shape[1]` after the `(n,) → (n,1)` reshape. -/
def numChannels (a : NpAudio) : ℕ := a.cols.length

/-- `data.shape[0]` (number of frames). -/
def numSamples (a : NpAudio) : ℕ := a.cols.headI.length

/-- `valid_audio` from `loudness.py`: floating-point dtype and at most five
channels for 2-D arrays (the `isinstance(ndarray)` check cannot fail in the
embedding, where every input is an array). -/
def valid_audio (a : NpAudio) : Except Err Unit :=
  if a.isFloat = false then .error .validation
  else if a.twoD = true ∧ 5 < a.cols.length then .error .validation
  else .ok ()

/-- The per-channel gains `G = [1.0, 1.0, 1.0, 1.41, 1.41]` of BS.1770. -/
def Glist : List ℝ := [1.0, 1.0, 1.0, 1.41, 1.41]

/-- `G[i]` as used with an index `i < numChannels ≤ 5`. -/
def Gain (i : ℕ) : ℝ := Glist.getD i 0

open Classical in
/-- `-0.691 + 10.0 * np.log10 s` on a float `s ≥ 0` (the arguments are sums
of squares): `np.log10 0.0` is `-inf`, modelled by `⊥ : EReal`, and the
additions leave `-inf` fixed. -/
noncomputable def mkLoudness (s : ℝ) : EReal :=
  if s ≤ 0 then ⊥ else (((-0.691 + 10 * Real.logb 10 s : ℝ) : EReal))

/-- `np.sum(G * z)` for a Python list `G` (length 5) and a 1-D array `z` of
length `numChannels`: numpy broadcasting accepts the shapes only when
`numChannels` is 1 (the single value is broadcast against all five gains)
or 5; otherwise a `ValueError` is raised. -/
def npBroadcastMulSum (gs : List ℝ) (z : List ℝ) : Except Err ℝ :=
  if z.length = 1 then .ok ((gs.map (fun g => g * z.headI)).sum)
  else if z.length = gs.length then .ok ((List.zipWith (· * ·) gs z).sum)
  else .error .broadcast

/-- `numBlocks = int(np.round((T - T_g) / (T_g * step))) + 1` with
`T = numSamples / rate`, `T_g = 0.4`, `step = 0.25` (`np.round` is
round-half-to-even, like Python `round`). -/
noncomputable def numBlocksZ (ns rate : ℕ) : ℤ :=
  pyround (((ns : ℝ) / rate - 0.4) / (0.4 * 0.25)) + 1

/-- `lower = int(T_g * (j * step) * rate)`. -/
noncomputable def blockLower (rate : ℕ) (j : ℕ) : ℤ :=
  pytrunc (0.4 * ((j : ℝ) * 0.25) * rate)

/-- `upper = int(T_g * (j * step + 1) * rate)`. -/
noncomputable def blockUpper (rate : ℕ) (j : ℕ) : ℤ :=
  pytrunc (0.4 * ((j : ℝ) * 0.25 + 1) * rate)

/-- `z[i, j] = (1 / (T_g * rate)) * np.sum(np.square(input_data[lower:upper, i]))`. -/
noncomputable def blockZ (rate : ℕ) (col : List ℝ) (j : ℕ) : ℝ :=
  (1 / (0.4 * rate)) * ((pySlice col (blockLower rate j) (blockUpper rate j)).map
    (fun x => x ^ 2)).sum

/-- Result of the multi-block branch of `_momentary_loudness`: the per-block
loudness list `lower` and the `z` matrix (channel-major). -/
structure MomMulti where
  l : List EReal
  z : List (List ℝ)

/-- The `z` matrix of the multi-block branch of `_momentary_loudness`
(channel-major; `ns` is `numSamples`, read before filtering). -/
noncomputable def momentaryZ (rate ns : ℕ) (cols : List (List ℝ)) :
    List (List ℝ) :=
  cols.map (fun col => (List.range (numBlocksZ ns rate).toNat).map (blockZ rate col))

/-- The per-block loudness list `lower` of the multi-block branch:
`l_j = -0.691 + 10 * log10(sum_i G[i] * z[i, j])`. -/
noncomputable def momentaryLs (rate ns : ℕ) (cols : List (List ℝ)) :
    List EReal :=
  (List.range (numBlocksZ ns rate).toNat).map (fun j =>
    mkLoudness (((momentaryZ rate ns cols).enum.map
      (fun p => Gain p.1 * p.2.getD j 0)).sum))

/-- The multi-block branch of `_momentary_loudness` on the filtered channel
columns. -/
noncomputable def momentaryMultiOf (rate ns : ℕ) (cols : List (List ℝ)) : MomMulti :=
  ⟨momentaryLs rate ns cols, momentaryZ rate ns cols⟩

/-- The single-block branch of `_momentary_loudness` on the filtered channel
columns: per-channel mean squares `z` and
`lower = -0.691 + 10 * np.log10(np.sum(G * z))` (with numpy broadcasting of
the length-5 gain list against the length-`numChannels` array `z`). -/
noncomputable def momentarySingleOf (rate : ℕ) (cols : List (List ℝ)) :
    Except Err (EReal × List ℝ) := do
  let z := cols.map (fun col => (1 / (0.4 * (rate : ℝ))) * (col.map (fun x => x ^ 2)).sum)
  let s ← npBroadcastMulSum Glist z
  .ok (mkLoudness s, z)

/-- Return value of `_momentary_loudness`: a per-block loudness list with the
`z` matrix (long input) or a single scalar with the `z` vector (short input). -/
inductive MomRes where
  | multi (m : MomMulti)
  | single (l : EReal) (z : List ℝ)

open Classical in
/-- The branch of `_momentary_loudness` after the filter pass (`fcols` are
the filtered columns, `ns` the sample count of the input). -/
noncomputable def momResOf (rate : ℕ) (ns : ℕ) (fcols : List (List ℝ)) :
    Except Err MomRes :=
  if (ns : ℝ) > 0.4 * rate then .ok (.multi (momentaryMultiOf rate ns fcols))
  else (momentarySingleOf rate fcols).map (fun p => .single p.1 p.2)

/-- `LoudnessMeter._momentary_loudness`: copy, validate, reshape, apply the
K-weighting stages per channel, then mean-square blocks and per-block (or
single-block) loudness. -/
noncomputable def momentary_loudness (rate : ℕ) (filters : List Biquad)
    (a : NpAudio) : Except Err MomRes := do
  let _ ← valid_audio a
  momResOf rate (numSamples a) (a.cols.map (applyFilters filters))

open Classical in
/-- `filterP p l` keeps the elements satisfying `p` (the list comprehensions
`[j for j, l_j in enumerate(...) if ...]`). -/
noncomputable def filterP {α : Type} (p : α → Prop) : List α → List α
  | [] => []
  | x :: xs => if p x then x :: filterP p xs else filterP p xs

/-- Gating-block indices above the absolute threshold:
`J_g = [j for j, l_j in enumerate(mom_loudness) if l_j >= Gamma_a]`. -/
noncomputable def gateAbs (l : List EReal) : List ℕ :=
  (filterP (fun p => ((-70 : ℝ) : EReal) ≤ p.2) l.enum).map Prod.fst

/-- Gating-block indices above the relative and absolute thresholds:
`J_g = [j for j, l_j in enumerate(mom_loudness) if (l_j > Gamma_r and l_j > Gamma_a)]`.
`Gamma_r` is `none` when it is the float `NaN` (empty first gate); any
comparison against `NaN` is false. -/
noncomputable def gateRel (l : List EReal) (gammaR : Option EReal) : List ℕ :=
  (filterP (fun p =>
    (match gammaR with
      | none => False
      | some g => g < p.2) ∧ ((-70 : ℝ) : EReal) < p.2) l.enum).map Prod.fst

/-- `np.mean([z[i, j] for j in J_g])` for channel `i` over a gating set. -/
noncomputable def zAvgGated (m : MomMulti) (J : List ℕ) (i : ℕ) : ℝ :=
  npMean (J.map (fun j => (m.z.getD i []).getD j 0))

/-- The relative threshold `Gamma_r` of eq. 6
(`-0.691 + 10 * log10(sum_i G[i] * z_avg[i]) - 10.0`); `none` models its
`NaN` value when the absolute gate kept no block (`np.mean([])`). -/
noncomputable def gammaROf (nc : ℕ) (m : MomMulti) : Option EReal :=
  if gateAbs m.l = [] then none
  else some (mkLoudness (((List.range nc).map
    (fun i => Gain i * zAvgGated m (gateAbs m.l) i)).sum) - ((10 : ℝ) : EReal))

/-- The gating stage of `_integrated_loudness` (everything after the
`_momentary_loudness` call), for `nc` channels: absolute gate, relative
threshold, second gate, `np.nan_to_num` of the gated means (a `NaN` from an
empty gate becomes 0), final loudness. -/
noncomputable def gatingOf (nc : ℕ) (m : MomMulti) : EReal :=
  mkLoudness (((List.range nc).map (fun i => Gain i *
    (if gateRel m.l (gammaROf nc m) = [] then (0 : ℝ)
     else zAvgGated m (gateRel m.l (gammaROf nc m)) i))).sum)

/-- `LoudnessMeter._integrated_loudness`: copy, validate, reshape,
momentary loudness and `z`, then the two gating stages.  When the input is
at most one block long, `_momentary_loudness` returns a scalar and the
enumeration over it raises a `TypeError` (unreachable from
`measure_loudness`, whose branch guarantees the multi-block case). -/
noncomputable def integrated_loudness (rate : ℕ) (filters : List Biquad)
    (a : NpAudio) : Except Err EReal := do
  let _ ← valid_audio a
  let mres ← momentary_loudness rate filters a
  match mres with
  | .multi m => .ok (gatingOf (numChannels a) m)
  | .single _ _ => .error .typeErr

open Classical in
/-- `LoudnessMeter.measure_loudness`: validate, then integrated gated
loudness for inputs longer than the 0.4 s block (clamped from below by
`threshold`), else the single-block momentary loudness (clamped likewise). -/
noncomputable def measure_loudness (rate : ℕ) (filters : List Biquad)
    (a : NpAudio) (thr : ℝ) : Except Err EReal := do
  let _ ← valid_audio a
  if (numSamples a : ℝ) > 0.4 * rate then
    (integrated_loudness rate filters a).map (fun L => max L ((thr : ℝ) : EReal))
  else do
    let mres ← momentary_loudness rate filters a
    match mres with
    | .single L _ => .ok (max L ((thr : ℝ) : EReal))
    | .multi _ => .error .typeErr

/-- `measure_loudness` on a 1-D (mono) buffer. -/
noncomputable def measureMonoE (rate : ℕ) (filters : List Biquad)
    (xs : List ℝ) (thr : ℝ) : Except Err EReal :=
  measure_loudness rate filters (monoNp xs) thr

/-- `measure_loudness` on a mono buffer as the real number the callers in
`pipeline.py` consume (the result is `max(·, threshold)`, hence finite). -/
noncomputable def measureMonoR (rate : ℕ) (filters : List Biquad)
    (xs : List ℝ) (thr : ℝ) : Except Err ℝ :=
  (measureMonoE rate filters xs thr).map EReal.toReal

/-- External collaborators of `Commenter` (spec section 6): TTS synthesis
(`self.synthesizer(comment)`), silence trimming
(`librosa.effects.trim(...)[0]`), time-scale modification
(`libtsm.tsm.hps_tsm` followed by `np.squeeze`), and resampling
(`librosa.resample x sr_in sr_out`).  The comment-text type is opaque. -/
structure Collab (α : Type) where
  synth : α → List ℝ
  trim : List ℝ → List ℝ
  tsm : List ℝ → ℝ → List ℝ
  resample : List ℝ → ℝ → ℝ → List ℝ

/-- The keyword arguments of `Commenter.__call__` that drive the placement
and mixing loop. -/
structure CParams where
  speed : ℝ
  tmin : Option ℝ
  tmax : Option ℝ
  posRel : ℝ
  posOff : ℝ
  offsetLoc : ℝ
  offsetGlob : ℝ
  wGlobLoc : ℝ

open Classical in
/-- The stretch factor computed by `_modify_comment_duration`:
`alpha = 1 / speed`, rescaled onto the nearer violated bound of
`[t_min, t_max]` (the `elif` gives the minimum bound priority). -/
noncomputable def modifiedAlpha (rate : ℕ) (len : ℕ) (speed : ℝ)
    (tmin tmax : Option ℝ) : ℝ :=
  let alpha := 1 / speed
  let tc := alpha * (len : ℝ) / rate
  if tmin.elim False (fun a => tc < a) then alpha * (tmin.getD 0 / tc)
  else if tmax.elim False (fun b => b < tc) then alpha * (tmax.getD 0 / tc)
  else alpha

/-- Failure condition of the assertion in `_modify_comment_duration`:
both bounds given and `t_min > t_max`. -/
def tBoundsBad (tmin tmax : Option ℝ) : Prop :=
  match tmin, tmax with
  | some a, some b => b < a
  | _, _ => False

open Classical in
/-- `Commenter._modify_comment_duration`: assert `t_min ≤ t_max` when both
are given (an `AssertionError`, the spec's ConfigError), compute the
stretch factor, and call the external TSM primitive only when it differs
from 1.  The boolean records whether the stretch primitive was invoked. -/
noncomputable def modify_comment_duration (rate : ℕ)
    (tsm : List ℝ → ℝ → List ℝ) (wav : List ℝ) (speed : ℝ)
    (tmin tmax : Option ℝ) : Except Err (List ℝ × Bool) :=
  if tBoundsBad tmin tmax then .error .config
  else
    let alpha := modifiedAlpha rate wav.length speed tmin tmax
    if alpha ≠ 1 then .ok (tsm wav alpha, true) else .ok (wav, false)

/-- `Commenter._get_comment_start`:
`round((t_start + pos_offset_abs) * fs - pos_rel * len(comment_wav))`. -/
noncomputable def get_comment_start (rate : ℕ) (wav : List ℝ)
    (t posRel posOff : ℝ) : ℤ :=
  pyround ((t + posOff) * rate - posRel * (wav.length : ℝ))

/-- The mutable state of the placement loop: the (resampled, possibly
padded) original signal, the comment track, and the cumulative left
padding `padding_left`. -/
structure CState where
  xres : List ℝ
  track : List ℝ
  padLeft : ℤ

open Classical in
/-- The `if n_m < 0` branch of `Commenter.__call__`: prepend
`padding_left_add = |n_m| - padding_left` zeros to both buffers (numpy
raises a `ValueError` when the width is negative), shift `n_m`, `n_m_end`,
and accumulate `padding_left`.  Returns the new state and the shifted
`(n_m, n_m_end)`. -/
noncomputable def leftPadStep (st : CState) (n nEnd : ℤ) :
    Except Err (CState × ℤ × ℤ) :=
  if n < 0 then
    let add := |n| - st.padLeft
    if add < 0 then .error .padNeg
    else .ok (⟨zeros add.toNat ++ st.xres, zeros add.toNat ++ st.track,
      st.padLeft + add⟩, n + add, nEnd + add)
  else .ok (st, n, nEnd)

open Classical in
/-- The `if n_m_end >= len(comment_track)` branch of `Commenter.__call__`:
append `padding_right_add = n_m_end - (len(comment_track) - 1)` zeros to
both buffers. -/
noncomputable def rightPadStep (xres track : List ℝ) (nEnd : ℤ) :
    List ℝ × List ℝ :=
  if (track.length : ℤ) ≤ nEnd then
    let addR := nEnd - ((track.length : ℤ) - 1)
    (xres ++ zeros addR.toNat, track ++ zeros addR.toNat)
  else (xres, track)

/-- Modelled from the spec: the external `pyloudnorm.normalize.loudness`
rescales the clip's gain so that its measured loudness moves from
`input_loudness` to `target_loudness`, i.e. multiplies the waveform by
`10 ** ((target - input) / 20)`. -/
noncomputable def pylnNormalize (wav : List ℝ) (measured target : ℝ) : List ℝ :=
  wav.map (fun x => x * (10 : ℝ) ^ ((target - measured) / 20))

/-- One iteration of the per-comment loop of `Commenter.__call__`
(lines 76-131): synthesize, trim, adjust duration, compute the start
index (plus `padding_left`), left/right padding, local and self loudness,
target loudness, normalization, and accumulation into the comment track. -/
noncomputable def processComment {α : Type} (rate : ℕ) (filters : List Biquad)
    (collab : Collab α) (p : CParams) (glob : ℝ) (st : CState)
    (cm : ℝ × α) : Except Err CState := do
  let c0 := collab.synth cm.2
  let c1 := collab.trim c0
  let md ← modify_comment_duration rate collab.tsm c1 p.speed p.tmin p.tmax
  let c := md.1
  let n0 := get_comment_start rate c cm.1 p.posRel p.posOff + st.padLeft
  let e0 := n0 + (c.length : ℤ)
  let lp ← leftPadStep st n0 e0
  let st1 := lp.1
  let n := lp.2.1
  let nEnd := lp.2.2
  let pr := rightPadStep st1.xres st1.track nEnd
  let lLocal ← measureMonoR rate filters (pySlice pr.1 n nEnd) (-70)
  let cL ← measureMonoR rate filters c (-70)
  let target := p.wGlobLoc * (lLocal + p.offsetLoc)
    + (1 - p.wGlobLoc) * (glob + p.offsetGlob)
  let cNorm := pylnNormalize c cL target
  let track3 ← sliceAddInto pr.2 n nEnd cNorm
  .ok ⟨pr.1, track3, st1.padLeft⟩

/-- `Commenter.__call__`: resample the input to the synthesizer rate,
measure its global loudness, run the per-comment placement loop, add the
comment track onto the signal, and resample back.  Both the commented
signal and the comment track are returned (`return_comment_track` only
selects between them). -/
noncomputable def commenter_call {α : Type} (rate : ℕ) (filters : List Biquad)
    (collab : Collab α) (xOrig : List ℝ) (xFs : ℝ)
    (comments : List (ℝ × α)) (p : CParams) :
    Except Err (List ℝ × List ℝ) := do
  let xres := collab.resample xOrig xFs (rate : ℝ)
  let glob ← measureMonoR rate filters xres (-70)
  let st0 : CState := ⟨xres, List.replicate xres.length 0, 0⟩
  let fin ← comments.foldlM (processComment rate filters collab p glob) st0
  let xCom := List.zipWith (· + ·) fin.xres fin.track
  .ok (collab.resample xCom (rate : ℝ) xFs, collab.resample fin.track (rate : ℝ) xFs)

/-! ### A store-passing model of the loudness calls

`_momentary_loudness` and `_integrated_loudness` mutate an array in place
(the per-channel filter writes), but only after `input_data = data.copy()`.
To state that the caller's buffer is not modified, the arrays live in an
explicit store: references are indices, `data.copy()` allocates a fresh
cell, and the filter pass writes through the reference it was given. -/

/-- The store of numpy arrays. -/
abbrev Heap : Type := List NpAudio

/-- Dereference (default: a fresh empty array). -/
def readA (h : Heap) (r : ℕ) : NpAudio := h.getD r ⟨true, false, []⟩

/-- Overwrite the array behind a reference. -/
def writeA (h : Heap) (r : ℕ) (a : NpAudio) : Heap := h.set r a

/-- `data.copy()` / allocation of a fresh array. -/
def allocA (h : Heap) (a : NpAudio) : Heap × ℕ := (h ++ [a], h.length)

/-- One stage of the in-place filter pass
(`input_data[:, ch] = filter_stage.apply_filter(input_data[:, ch])` for
every channel): each channel column is rewritten through the reference. -/
def stageWriteA (st : Biquad) (h : Heap) (r : ℕ) : Heap :=
  writeA h r ⟨(readA h r).isFloat, (readA h r).twoD,
    (readA h r).cols.map (biquadApply st)⟩

/-- The cascade of in-place filter stages
(`for filter_class, filter_stage in self._filters.items(): ...`). -/
def filtersWriteA (filters : List Biquad) (h : Heap) (r : ℕ) : Heap :=
  filters.foldl (fun hh st => stageWriteA st hh r) h

/-- `_momentary_loudness` in the store model: copy the argument, validate,
filter the copy in place, then the pure block computation. -/
noncomputable def momentary_loudnessH (rate : ℕ) (filters : List Biquad)
    (h : Heap) (r : ℕ) : Except Err MomRes × Heap :=
  let a := readA h r
  let h1 := (allocA h a).1
  let rc := (allocA h a).2
  match valid_audio (readA h1 rc) with
  | .error e => (.error e, h1)
  | .ok _ =>
    let h2 := filtersWriteA filters h1 rc
    (momResOf rate (numSamples a) (readA h2 rc).cols, h2)

/-- `_integrated_loudness` in the store model: copy the argument, validate,
delegate to `_momentary_loudness` (which copies again), then the pure
gating stage. -/
noncomputable def integrated_loudnessH (rate : ℕ) (filters : List Biquad)
    (h : Heap) (r : ℕ) : Except Err EReal × Heap :=
  let a := readA h r
  let h1 := (allocA h a).1
  let rc := (allocA h a).2
  match valid_audio (readA h1 rc) with
  | .error e => (.error e, h1)
  | .ok _ =>
    let mh := momentary_loudnessH rate filters h1 rc
    match mh.1 with
    | .error e => (.error e, mh.2)
    | .ok (.multi m) => (.ok (gatingOf (numChannels a) m), mh.2)
    | .ok (.single _ _) => (.error .typeErr, mh.2)

open Classical in
/-- `measure_loudness` in the store model: validate the caller's array
(read-only), then branch to the integrated or single-block computation,
each of which receives the caller's reference and works on copies. -/
noncomputable def measure_loudnessH (rate : ℕ) (filters : List Biquad)
    (h : Heap) (r : ℕ) (thr : ℝ) : Except Err EReal × Heap :=
  let a := readA h r
  match valid_audio a with
  | .error e => (.error e, h)
  | .ok _ =>
    if (numSamples a : ℝ) > 0.4 * rate then
      let ih := integrated_loudnessH rate filters h r
      (ih.1.map (fun L => max L ((thr : ℝ) : EReal)), ih.2)
    else
      let mh := momentary_loudnessH rate filters h r
      match mh.1 with
      | .ok (.single L _) => (.ok (max L ((thr : ℝ) : EReal)), mh.2)
      | .ok (.multi _) => (.error .typeErr, mh.2)
      | .error e => (.error e, mh.2)

/-! ### Helper lemmas -/

/-- `pyround` agrees with the identity on integers. -/
theorem pyround_intCast (n : ℤ) : pyround (n : ℝ) = n := by
  unfold pyround
  rw [Int.floor_intCast]
  have h : ((n : ℝ) - n) = 0 := by ring
  rw [h, if_neg (by norm_num), round_intCast]

/-- All samples of a buffer are zero. -/
def AllZ (xs : List ℝ) : Prop := ∀ x ∈ xs, x = 0

theorem allZ_zeros (n : ℕ) : AllZ (zeros n) := by
  intro x hx
  exact List.eq_of_mem_replicate hx

theorem allZ_nil : AllZ ([] : List ℝ) := by
  intro x hx
  cases hx

theorem AllZ.append {xs ys : List ℝ} (hx : AllZ xs) (hy : AllZ ys) :
    AllZ (xs ++ ys) := by
  intro x hm
  rcases List.mem_append.mp hm with h | h
  · exact hx x h
  · exact hy x h

theorem AllZ.take {xs : List ℝ} (h : AllZ xs) (n : ℕ) : AllZ (xs.take n) :=
  fun x hx => h x (List.mem_of_mem_take hx)

theorem AllZ.drop {xs : List ℝ} (h : AllZ xs) (n : ℕ) : AllZ (xs.drop n) :=
  fun x hx => h x (List.mem_of_mem_drop hx)

theorem AllZ.pySlice {xs : List ℝ} (h : AllZ xs) (a b : ℤ) :
    AllZ (pySlice xs a b) := by
  unfold TextAlignSynth.pySlice
  exact ((h.drop _).take _)

theorem AllZ.sum_eq_zero {xs : List ℝ} (h : AllZ xs) : xs.sum = 0 :=
  List.sum_eq_zero h

theorem AllZ.sumSq {xs : List ℝ} (h : AllZ xs) :
    (xs.map (fun x => x ^ 2)).sum = 0 := by
  apply List.sum_eq_zero
  intro y hy
  rcases List.mem_map.mp hy with ⟨x, hx, rfl⟩
  rw [h x hx]
  ring

theorem AllZ.getD {xs : List ℝ} (h : AllZ xs) (j : ℕ) : xs.getD j 0 = 0 := by
  induction xs generalizing j with
  | nil => simp [List.getD]
  | cons x xs ih =>
    cases j with
    | zero =>
      simpa using h x (List.mem_cons_self x xs)
    | succ n =>
      rw [List.getD_cons_succ]
      exact ih (fun y hy => h y (List.mem_cons_of_mem x hy)) n

theorem biquadRun_allZ (f : Biquad) {xs : List ℝ} (h : AllZ xs) :
    AllZ (biquadRun f xs 0 0) := by
  induction xs with
  | nil => exact allZ_nil
  | cons x xs ih =>
    have hx : x = 0 := h x (List.mem_cons_self x xs)
    have hxs : AllZ xs := fun y hy => h y (List.mem_cons_of_mem x hy)
    intro y hy
    rw [biquadRun] at hy
    simp only [hx] at hy
    have e1 : f.b0 * 0 + 0 = (0 : ℝ) := by ring
    have e2 : f.b1 * 0 - f.a1 * (f.b0 * 0 + 0) + 0 = (0 : ℝ) := by ring
    have e3 : f.b2 * 0 - f.a2 * (f.b0 * 0 + 0) = (0 : ℝ) := by ring
    rw [e2, e3] at hy
    rcases List.mem_cons.mp hy with h0 | h0
    · rw [h0, e1]
    · exact ih hxs y h0

theorem AllZ.biquadApply (f : Biquad) {xs : List ℝ} (h : AllZ xs) :
    AllZ (TextAlignSynth.biquadApply f xs) := by
  intro y hy
  rcases List.mem_map.mp hy with ⟨x, hx, rfl⟩
  rw [biquadRun_allZ f h x hx]
  ring

theorem AllZ.applyFilters (fs : List Biquad) {xs : List ℝ} (h : AllZ xs) :
    AllZ (TextAlignSynth.applyFilters fs xs) := by
  induction fs generalizing xs with
  | nil => exact h
  | cons f fs ih =>
    unfold TextAlignSynth.applyFilters
    rw [List.foldl_cons]
    exact ih (h.biquadApply f)

theorem biquadRun_length (f : Biquad) (xs : List ℝ) (s1 s2 : ℝ) :
    (biquadRun f xs s1 s2).length = xs.length := by
  induction xs generalizing s1 s2 with
  | nil => rfl
  | cons x xs ih =>
    rw [biquadRun]
    simp [ih]

theorem biquadApply_length (f : Biquad) (xs : List ℝ) :
    (biquadApply f xs).length = xs.length := by
  unfold biquadApply
  rw [List.length_map, biquadRun_length]

theorem applyFilters_length (fs : List Biquad) (xs : List ℝ) :
    (applyFilters fs xs).length = xs.length := by
  induction fs generalizing xs with
  | nil => rfl
  | cons f fs ih =>
    unfold applyFilters
    rw [List.foldl_cons]
    have := ih (biquadApply f xs)
    unfold applyFilters at this
    rw [this, biquadApply_length]

theorem mkLoudness_zero : mkLoudness 0 = ⊥ := by
  unfold mkLoudness
  rw [if_pos le_rfl]

theorem filterP_eq_nil {α : Type} {p : α → Prop} {l : List α}
    (h : ∀ a ∈ l, ¬ p a) : filterP p l = [] := by
  induction l with
  | nil => rfl
  | cons x xs ih =>
    rw [filterP, if_neg (h x (List.mem_cons_self x xs))]
    exact ih fun a ha => h a (List.mem_cons_of_mem x ha)

theorem snd_mem_of_mem_enumFrom {α : Type} {l : List α} {n : ℕ} {p : ℕ × α}
    (h : p ∈ l.enumFrom n) : p.2 ∈ l := by
  induction l generalizing n with
  | nil => cases h
  | cons x xs ih =>
    rw [List.enumFrom_cons] at h
    rcases List.mem_cons.mp h with h0 | h0
    · rw [h0]
      exact List.mem_cons_self _ _
    · exact List.mem_cons_of_mem _ (ih h0)

theorem snd_mem_of_mem_enum {α : Type} {l : List α} {p : ℕ × α}
    (h : p ∈ l.enum) : p.2 ∈ l :=
  snd_mem_of_mem_enumFrom h

theorem valid_audio_mono (xs : List ℝ) : valid_audio (monoNp xs) = .ok () := rfl

theorem blockZ_allZ (rate : ℕ) {col : List ℝ} (h : AllZ col) (j : ℕ) :
    blockZ rate col j = 0 := by
  unfold blockZ
  rw [(h.pySlice _ _).sumSq, mul_zero]

theorem momentaryZ_allZ (rate ns : ℕ) {cols : List (List ℝ)}
    (h : ∀ col ∈ cols, AllZ col) :
    ∀ row ∈ momentaryZ rate ns cols, AllZ row := by
  intro row hrow
  rcases List.mem_map.mp hrow with ⟨col, hcol, rfl⟩
  intro y hy
  rcases List.mem_map.mp hy with ⟨j', _, rfl⟩
  exact blockZ_allZ rate (h col hcol) j'

theorem momentaryLs_allBot (rate ns : ℕ) {cols : List (List ℝ)}
    (h : ∀ col ∈ cols, AllZ col) :
    ∀ L ∈ momentaryLs rate ns cols, L = ⊥ := by
  intro L hL
  rcases List.mem_map.mp hL with ⟨j, _, rfl⟩
  have hz : ((momentaryZ rate ns cols).enum.map
      (fun p => Gain p.1 * p.2.getD j 0)).sum = 0 := by
    apply List.sum_eq_zero
    intro y hy
    rcases List.mem_map.mp hy with ⟨p, hp, rfl⟩
    have h2 : AllZ p.2 :=
      momentaryZ_allZ rate ns h p.2 (snd_mem_of_mem_enum hp)
    rw [h2.getD j, mul_zero]
  rw [hz, mkLoudness_zero]

theorem gateAbs_allBot {l : List EReal} (h : ∀ L ∈ l, L = ⊥) :
    gateAbs l = [] := by
  unfold gateAbs
  rw [filterP_eq_nil, List.map_nil]
  intro p hp hle
  have hb : p.2 = ⊥ := h p.2 (snd_mem_of_mem_enum hp)
  rw [hb, le_bot_iff] at hle
  exact EReal.coe_ne_bot _ hle

theorem gateRel_none (l : List EReal) : gateRel l none = [] := by
  unfold gateRel
  rw [filterP_eq_nil, List.map_nil]
  intro p _ hfa
  exact hfa.1

theorem gatingOf_allBot (nc : ℕ) (m : MomMulti)
    (h : ∀ L ∈ m.l, L = ⊥) : gatingOf nc m = ⊥ := by
  have hg : gammaROf nc m = none := by
    unfold gammaROf
    rw [gateAbs_allBot h]
    simp
  unfold gatingOf
  rw [hg, gateRel_none]
  have hz : ((List.range nc).map (fun i => Gain i *
      (if ([] : List ℕ) = [] then (0 : ℝ)
       else zAvgGated m [] i))).sum = 0 := by
    apply List.sum_eq_zero
    intro y hy
    rcases List.mem_map.mp hy with ⟨i, _, rfl⟩
    rw [if_pos rfl, mul_zero]
  rw [hz, mkLoudness_zero]

theorem npBroadcastMulSum_zero :
    npBroadcastMulSum Glist [(0 : ℝ)] = .ok 0 := by
  unfold npBroadcastMulSum
  rw [if_pos (by norm_num)]
  congr 1
  apply List.sum_eq_zero
  intro y hy
  rcases List.mem_map.mp hy with ⟨g, _, rfl⟩
  simp [List.headI]

theorem momentarySingleOf_mono_allZ (rate : ℕ) {xs : List ℝ} (h : AllZ xs) :
    momentarySingleOf rate [xs] = .ok (⊥, [0]) := by
  unfold momentarySingleOf
  simp only [List.map_cons, List.map_nil, h.sumSq, mul_zero]
  rw [npBroadcastMulSum_zero]
  show Except.ok (mkLoudness 0, [(0 : ℝ)]) = _
  rw [mkLoudness_zero]

/-- On an all-zero (silent) mono buffer of any length, `measure_loudness`
returns exactly the supplied threshold: every gated mean square is zero,
the logarithms are `-inf`, and `max(·, threshold)` clamps to the floor. -/
theorem measureMonoE_silent (rate : ℕ) (filters : List Biquad)
    {xs : List ℝ} (thr : ℝ) (h : AllZ xs) :
    measureMonoE rate filters xs thr = .ok ((thr : ℝ) : EReal) := by
  have hf : AllZ (applyFilters filters xs) := h.applyFilters filters
  have hcols : ∀ col ∈ [applyFilters filters xs], AllZ col := by
    intro col hcol
    rw [List.mem_singleton.mp hcol]
    exact hf
  unfold measureMonoE measure_loudness
  rw [valid_audio_mono]
  show (if ((numSamples (monoNp xs) : ℝ) > 0.4 * rate) then
      (integrated_loudness rate filters (monoNp xs)).map
        (fun L => max L ((thr : ℝ) : EReal))
    else _) = _
  by_cases hc : ((numSamples (monoNp xs) : ℝ) > 0.4 * rate)
  · rw [if_pos hc]
    have hint : integrated_loudness rate filters (monoNp xs) = .ok ⊥ := by
      unfold integrated_loudness
      rw [valid_audio_mono]
      show (momentary_loudness rate filters (monoNp xs)).bind _ = _
      unfold momentary_loudness
      rw [valid_audio_mono]
      show (momResOf rate (numSamples (monoNp xs))
        [applyFilters filters xs]).bind _ = _
      unfold momResOf
      rw [if_pos hc]
      show Except.ok (gatingOf (numChannels (monoNp xs))
        (momentaryMultiOf rate (numSamples (monoNp xs))
          [applyFilters filters xs])) = _
      rw [gatingOf_allBot _ _ (momentaryLs_allBot rate _ hcols)]
    rw [hint]
    show Except.ok (max ⊥ ((thr : ℝ) : EReal)) = _
    rw [max_eq_right bot_le]
  · rw [if_neg hc]
    show (momentary_loudness rate filters (monoNp xs)).bind _ = _
    unfold momentary_loudness
    rw [valid_audio_mono]
    show (momResOf rate (numSamples (monoNp xs))
      [applyFilters filters xs]).bind _ = _
    unfold momResOf
    rw [if_neg hc]
    show ((momentarySingleOf rate [applyFilters filters xs]).map
      (fun p => MomRes.single p.1 p.2)).bind _ = _
    rw [momentarySingleOf_mono_allZ rate hf]
    show Except.ok (max ⊥ ((thr : ℝ) : EReal)) = _
    rw [max_eq_right bot_le]

/-- `measureMonoR` on silence is the threshold itself. -/
theorem measureMonoR_silent (rate : ℕ) (filters : List Biquad)
    {xs : List ℝ} (thr : ℝ) (h : AllZ xs) :
    measureMonoR rate filters xs thr = .ok thr := by
  unfold measureMonoR
  rw [measureMonoE_silent rate filters thr h]
  show Except.ok (EReal.toReal ((thr : ℝ) : EReal)) = _
  rw [EReal.toReal_coe]

theorem pySliceResolve_le (i : ℤ) (L : ℕ) : pySliceResolve i L ≤ L := by
  unfold pySliceResolve
  split
  · omega
  · exact min_le_right _ _

/-- A successful in-place slice addition preserves the buffer length. -/
theorem sliceAddInto_length {xs c res : List ℝ} {a b : ℤ}
    (h : sliceAddInto xs a b c = .ok res) : res.length = xs.length := by
  have h1 := pySliceResolve_le a xs.length
  have h2 := pySliceResolve_le b xs.length
  simp only [sliceAddInto] at h
  split at h
  · injection h with h
    subst h
    simp only [List.length_append, List.length_take, List.length_zipWith,
      List.length_drop]
    omega
  · split at h
    · injection h with h
      subst h
      simp only [List.length_append, List.length_take, List.length_map,
        List.length_drop]
      omega
    · cases h

theorem AllZ.zipWithAdd {xs c : List ℝ} (hx : AllZ xs) (hc : AllZ c) :
    AllZ (List.zipWith (· + ·) xs c) := by
  induction xs generalizing c with
  | nil => exact allZ_nil
  | cons x xs ih =>
    cases c with
    | nil => exact allZ_nil
    | cons y c =>
      intro v hv
      rcases List.mem_cons.mp hv with h0 | h0
      · rw [h0, hx x (List.mem_cons_self _ _), hc y (List.mem_cons_self _ _)]
        ring
      · exact ih (fun u hu => hx u (List.mem_cons_of_mem _ hu))
          (fun u hu => hc u (List.mem_cons_of_mem _ hu)) v h0

theorem AllZ.pylnNorm {c : List ℝ} (h : AllZ c) (measured target : ℝ) :
    AllZ (pylnNormalize c measured target) := by
  intro y hy
  rcases List.mem_map.mp hy with ⟨x, hx, rfl⟩
  rw [h x hx, zero_mul]

theorem AllZ.sliceAdd {xs c res : List ℝ} {a b : ℤ} (hx : AllZ xs)
    (hc : AllZ c) (h : sliceAddInto xs a b c = .ok res) : AllZ res := by
  simp only [sliceAddInto] at h
  split at h
  · injection h with h
    subst h
    exact ((hx.take _).append ((((hx.drop _).take _).zipWithAdd hc))).append
      (hx.drop _)
  · split at h
    · injection h with h
      subst h
      refine ((hx.take _).append ?_).append (hx.drop _)
      intro y hy
      rcases List.mem_map.mp hy with ⟨x, hxm, rfl⟩
      have hx0 : x = 0 := ((hx.drop _).take _) x hxm
      have hh : c.headI = 0 := by
        cases c with
        | nil => rfl
        | cons u us => exact hc u (List.mem_cons_self _ _)
      rw [hx0, hh, add_zero]
    · cases h

/-- Long-buffer evaluation of `measure_loudness` on a mono signal. -/
theorem measureMonoE_long (rate : ℕ) (filters : List Biquad) (xs : List ℝ)
    (thr : ℝ) (hc : ((xs.length : ℝ) > 0.4 * rate)) :
    measureMonoE rate filters xs thr =
      .ok (max (gatingOf 1 (momentaryMultiOf rate xs.length
        [applyFilters filters xs])) ((thr : ℝ) : EReal)) := by
  have hc' : ((numSamples (monoNp xs) : ℝ) > 0.4 * rate) := hc
  unfold measureMonoE measure_loudness
  rw [valid_audio_mono]
  show (if ((numSamples (monoNp xs) : ℝ) > 0.4 * rate) then
      (integrated_loudness rate filters (monoNp xs)).map
        (fun L => max L ((thr : ℝ) : EReal))
    else _) = _
  rw [if_pos hc']
  have hint : integrated_loudness rate filters (monoNp xs) =
      .ok (gatingOf 1 (momentaryMultiOf rate xs.length
        [applyFilters filters xs])) := by
    unfold integrated_loudness
    rw [valid_audio_mono]
    show (momentary_loudness rate filters (monoNp xs)).bind _ = _
    unfold momentary_loudness
    rw [valid_audio_mono]
    show (momResOf rate (numSamples (monoNp xs))
      [applyFilters filters xs]).bind _ = _
    unfold momResOf
    rw [if_pos hc']
    rfl
  rw [hint]
  rfl

/-- Evaluation of the single-block branch of `_momentary_loudness` on one
channel column: the length-1 `z` broadcasts against all five gains. -/
theorem momentarySingleOf_mono (rate : ℕ) (col : List ℝ) :
    momentarySingleOf rate [col] =
      .ok (mkLoudness ((Glist.map (fun g => g * ((1 / (0.4 * (rate : ℝ))) *
          (col.map (fun x => x ^ 2)).sum))).sum),
        [(1 / (0.4 * (rate : ℝ))) * (col.map (fun x => x ^ 2)).sum]) := rfl

/-- Short-buffer evaluation of `measure_loudness` on a mono signal: the
single-block momentary loudness of the whole (filtered) buffer. -/
theorem measureMonoE_short (rate : ℕ) (filters : List Biquad) (xs : List ℝ)
    (thr : ℝ) (hc : ¬ ((xs.length : ℝ) > 0.4 * rate)) :
    measureMonoE rate filters xs thr =
      .ok (max (mkLoudness ((Glist.map (fun g => g * ((1 / (0.4 * (rate : ℝ))) *
        ((applyFilters filters xs).map (fun x => x ^ 2)).sum))).sum))
        ((thr : ℝ) : EReal)) := by
  have hc' : ¬ ((numSamples (monoNp xs) : ℝ) > 0.4 * rate) := hc
  unfold measureMonoE measure_loudness
  rw [valid_audio_mono]
  show (if ((numSamples (monoNp xs) : ℝ) > 0.4 * rate) then _
    else (momentary_loudness rate filters (monoNp xs)).bind _) = _
  rw [if_neg hc']
  unfold momentary_loudness
  rw [valid_audio_mono]
  show ((momResOf rate (numSamples (monoNp xs))
    [applyFilters filters xs]).bind _) = _
  unfold momResOf
  rw [if_neg hc']
  rw [momentarySingleOf_mono rate (applyFilters filters xs)]
  rfl

/-- Long-buffer evaluation of `measure_loudness` as a real. -/
theorem measureMonoR_long (rate : ℕ) (filters : List Biquad) (xs : List ℝ)
    (thr : ℝ) (hc : ((xs.length : ℝ) > 0.4 * rate)) :
    measureMonoR rate filters xs thr =
      .ok (EReal.toReal (max (gatingOf 1 (momentaryMultiOf rate xs.length
        [applyFilters filters xs])) ((thr : ℝ) : EReal))) := by
  unfold measureMonoR
  rw [measureMonoE_long rate filters xs thr hc]
  rfl

/-- Short-buffer evaluation of `measure_loudness` as a real. -/
theorem measureMonoR_short (rate : ℕ) (filters : List Biquad) (xs : List ℝ)
    (thr : ℝ) (hc : ¬ ((xs.length : ℝ) > 0.4 * rate)) :
    measureMonoR rate filters xs thr =
      .ok (EReal.toReal (max (mkLoudness ((Glist.map
        (fun g => g * ((1 / (0.4 * (rate : ℝ))) *
          ((applyFilters filters xs).map (fun x => x ^ 2)).sum))).sum))
        ((thr : ℝ) : EReal))) := by
  unfold measureMonoR
  rw [measureMonoE_short rate filters xs thr hc]
  rfl

/-- `measure_loudness` never raises on a mono buffer. -/
theorem measureMonoR_isOk (rate : ℕ) (filters : List Biquad) (xs : List ℝ)
    (thr : ℝ) : ∃ v, measureMonoR rate filters xs thr = .ok v := by
  by_cases hc : ((xs.length : ℝ) > 0.4 * rate)
  · exact ⟨_, measureMonoR_long rate filters xs thr hc⟩
  · exact ⟨_, measureMonoR_short rate filters xs thr hc⟩

/-- A concrete biquad stage (unit passband gain, `b0 = 1`, all other
coefficients zero).  The K-weighting coefficients of the meter are produced
by the external `pyloudnorm.IIRfilter` design equations and are not part of
this repository; closed evaluations below instantiate the cascade with
concrete stages, and none of the evaluated facts depend on the coefficient
values except where explicitly proved about this stage. -/
def idStage : Biquad := ⟨1, 1, 0, 0, 0, 0⟩

/-- A two-stage cascade (the meter has a high-shelf and a high-pass stage). -/
def idCascade : List Biquad := [idStage, idStage]

theorem biquadRun_idStage (xs : List ℝ) : biquadRun idStage xs 0 0 = xs := by
  induction xs with
  | nil => rfl
  | cons x xs ih =>
    rw [biquadRun]
    show (idStage.b0 * x + 0) :: biquadRun idStage xs
      (idStage.b1 * x - idStage.a1 * (idStage.b0 * x + 0) + 0)
      (idStage.b2 * x - idStage.a2 * (idStage.b0 * x + 0)) = x :: xs
    have e0 : idStage.b0 * x + 0 = x := by
      show 1 * x + 0 = x
      ring
    have e1 : idStage.b1 * x - idStage.a1 * (idStage.b0 * x + 0) + 0 = (0 : ℝ) := by
      show 0 * x - 0 * (1 * x + 0) + 0 = (0 : ℝ)
      ring
    have e2 : idStage.b2 * x - idStage.a2 * (idStage.b0 * x + 0) = (0 : ℝ) := by
      show 0 * x - 0 * (1 * x + 0) = (0 : ℝ)
      ring
    rw [e1, e2, e0, ih]

theorem biquadApply_idStage (xs : List ℝ) : biquadApply idStage xs = xs := by
  unfold biquadApply
  rw [biquadRun_idStage]
  have : (fun y => idStage.g * y) = fun y : ℝ => 1 * y := rfl
  rw [this]
  simp

theorem applyFilters_idCascade (xs : List ℝ) : applyFilters idCascade xs = xs := by
  unfold applyFilters idCascade
  rw [List.foldl_cons, List.foldl_cons, List.foldl_nil,
    biquadApply_idStage, biquadApply_idStage]

/-- The single-block branch raises the numpy broadcast `ValueError` when
the channel count is neither 1 nor 5 (`np.sum(G * z)` with a 5-element
Python list `G` and a `numChannels`-element array `z`). -/
theorem momentarySingleOf_broadcast (rate : ℕ) (cols : List (List ℝ))
    (hn1 : cols.length ≠ 1) (hn5 : cols.length ≠ 5) :
    momentarySingleOf rate cols = .error .broadcast := by
  have h5 : Glist.length = 5 := rfl
  simp only [momentarySingleOf, npBroadcastMulSum, List.length_map, h5]
  rw [if_neg hn1, if_neg hn5]
  rfl

/-- On a valid input of at most one block whose channel count is neither 1
nor 5, `measure_loudness` propagates the numpy broadcast `ValueError` from
`np.sum(G * z)` in the single-block branch of `_momentary_loudness`. -/
theorem measure_short_broadcast (rate : ℕ) (filters : List Biquad)
    (a : NpAudio) (thr : ℝ) (hv : valid_audio a = .ok ())
    (hc : ¬ ((numSamples a : ℝ) > 0.4 * rate))
    (hn1 : a.cols.length ≠ 1) (hn5 : a.cols.length ≠ 5) :
    measure_loudness rate filters a thr = .error .broadcast := by
  unfold measure_loudness
  rw [hv]
  show (if ((numSamples a : ℝ) > 0.4 * rate) then _
    else (momentary_loudness rate filters a).bind _) = _
  rw [if_neg hc]
  unfold momentary_loudness
  rw [hv]
  show ((momResOf rate (numSamples a)
    (a.cols.map (applyFilters filters))).bind _) = _
  unfold momResOf
  rw [if_neg hc]
  rw [momentarySingleOf_broadcast rate _
    (by rw [List.length_map]; exact hn1)
    (by rw [List.length_map]; exact hn5)]
  rfl

/-- C3.  The failing 2-channel silent input: three frames of zeros in two
channels (at rate 10, shorter than the 0.4 s block). -/
def twoChSilence : NpAudio := ⟨true, true, [[0, 0, 0], [0, 0, 0]]⟩

/-- C3: for every buffer of pure silence with at most 5 channels,
`measure_loudness` is claimed to return exactly the threshold.  This holds
on the mono path (second conjunct), but the code CRASHES on short
multichannel silence: in the single-block branch `np.sum(G * z)` broadcasts
the 5-element gain list against the `numChannels`-element `z`, a numpy
`ValueError` for 2-4 channels — contradicting the docstring
"Supports up to 5 channels". -/
theorem C3_silence_code_bug :
    valid_audio twoChSilence = .ok () ∧
    measure_loudness 10 idCascade twoChSilence (-70) = .error .broadcast ∧
    measureMonoE 10 idCascade (zeros 3) (-70) = .ok (((-70 : ℝ) : EReal)) := by
  refine ⟨rfl, ?_, measureMonoE_silent 10 idCascade (-70) (allZ_zeros 3)⟩
  apply measure_short_broadcast
  · rfl
  · show ¬ ((3 : ℕ) : ℝ) > 0.4 * (10 : ℕ)
    push_cast
    norm_num
  · norm_num [twoChSilence]
  · norm_num [twoChSilence]

/-- C5.  A failing valid input: two frames of ones in three channels. -/
def threeChOnes : NpAudio := ⟨true, true, [[1, 1], [1, 1], [1, 1]]⟩

/-- C5: `valid_audio` raises a validation error exactly for non-float
input or a 2-D input with more than five channels (first conjunct).  But
the claim that no error at all is raised for valid float inputs with at
most 5 channels is refuted by the code: a short 3-channel buffer passes
validation and then crashes with the numpy broadcast `ValueError` of the
single-block branch. -/
theorem C5_validation_code_bug :
    (∀ a : NpAudio, valid_audio a = .error .validation ↔
      (a.isFloat = false ∨ (a.twoD = true ∧ 5 < a.cols.length))) ∧
    valid_audio threeChOnes = .ok () ∧
    measure_loudness 10 idCascade threeChOnes (-70) = .error .broadcast := by
  refine ⟨?_, rfl, ?_⟩
  · intro a
    unfold valid_audio
    by_cases h1 : a.isFloat = false
    · rw [if_pos h1]
      simp [h1]
    · rw [if_neg h1]
      by_cases h2 : a.twoD = true ∧ 5 < a.cols.length
      · rw [if_pos h2]
        simp [h1, h2]
      · rw [if_neg h2]
        simp [h1, h2]
  · apply measure_short_broadcast
    · rfl
    · show ¬ ((2 : ℕ) : ℝ) > 0.4 * (10 : ℕ)
      push_cast
      norm_num
    · norm_num [threeChOnes]
    · norm_num [threeChOnes]

/-- C4: `measure_loudness` branches on the sample count against
`block_size * rate`: strictly longer buffers get the integrated gated
loudness, all other (at most one block) buffers get the ungated
single-block momentary loudness, both clamped from below by `threshold`. -/
theorem C4_branching (rate : ℕ) (filters : List Biquad) (a : NpAudio)
    (thr : ℝ) (hv : valid_audio a = .ok ()) :
    (((numSamples a : ℝ) > 0.4 * rate) →
      measure_loudness rate filters a thr =
        (integrated_loudness rate filters a).map
          (fun L => max L ((thr : ℝ) : EReal))) ∧
    (¬ ((numSamples a : ℝ) > 0.4 * rate) →
      measure_loudness rate filters a thr =
        (momentarySingleOf rate (a.cols.map (applyFilters filters))).map
          (fun p => max p.1 ((thr : ℝ) : EReal))) := by
  constructor
  · intro h
    unfold measure_loudness
    rw [hv]
    show (if ((numSamples a : ℝ) > 0.4 * rate) then
        (integrated_loudness rate filters a).map _ else _) = _
    rw [if_pos h]
  · intro h
    unfold measure_loudness
    rw [hv]
    show (if ((numSamples a : ℝ) > 0.4 * rate) then _
      else (momentary_loudness rate filters a).bind _) = _
    rw [if_neg h]
    unfold momentary_loudness
    rw [hv]
    show ((momResOf rate (numSamples a)
      (a.cols.map (applyFilters filters))).bind _) = _
    unfold momResOf
    rw [if_neg h]
    cases hres : momentarySingleOf rate (a.cols.map (applyFilters filters)) with
    | ok p => rfl
    | error e => rfl

/-- Witness for C4 at a concrete input: a 2-sample mono buffer at rate 10
is at most one block long, so the short branch applies. -/
theorem C4_branching_witness :
    measure_loudness 10 idCascade (monoNp [1, 1]) (-70) =
      (momentarySingleOf 10 ((monoNp [1, 1]).cols.map
        (applyFilters idCascade))).map
        (fun p => max p.1 (((-70 : ℝ)) : EReal)) := by
  have h := C4_branching 10 idCascade (monoNp [1, 1]) (-70) rfl
  exact h.2 (by
    show ¬ ((2 : ℕ) : ℝ) > 0.4 * (10 : ℕ)
    push_cast
    norm_num)

open Classical in
/-- C6: duration adjustment computes `alpha = 1/speed` and, when the
resulting duration `t_comment = alpha * len / fs` violates a bound,
rescales `alpha` so the post-stretch duration hits the violated bound
exactly (`t_max` case second conjunct, `t_min` case third conjunct, the
`elif` giving `t_min` priority); the external stretch primitive is invoked
exactly when the final `alpha` differs from 1 (first conjunct), so a clip
at `speed = 1` within `[t_min, t_max]` is returned unchanged with no
stretch call (last conjunct). -/
theorem C6_duration_adjust (rate : ℕ) (tsm : List ℝ → ℝ → List ℝ)
    (wav : List ℝ) (speed : ℝ) (tmin tmax : Option ℝ)
    (hr : 0 < rate) (hlen : 0 < wav.length) (hs : 0 < speed)
    (hcfg : ∀ a b, tmin = some a → tmax = some b → a ≤ b) :
    (modify_comment_duration rate tsm wav speed tmin tmax =
      if modifiedAlpha rate wav.length speed tmin tmax ≠ 1
      then .ok (tsm wav (modifiedAlpha rate wav.length speed tmin tmax), true)
      else .ok (wav, false)) ∧
    (∀ b, tmax = some b → b < 1 / speed * (wav.length : ℝ) / rate →
      (∀ a, tmin = some a → ¬ (1 / speed * (wav.length : ℝ) / rate < a)) →
      modifiedAlpha rate wav.length speed tmin tmax * (wav.length : ℝ) / rate = b) ∧
    (∀ a, tmin = some a → 1 / speed * (wav.length : ℝ) / rate < a →
      modifiedAlpha rate wav.length speed tmin tmax * (wav.length : ℝ) / rate = a) ∧
    (speed = 1 →
      (∀ a, tmin = some a → a ≤ 1 / speed * (wav.length : ℝ) / rate) →
      (∀ b, tmax = some b → 1 / speed * (wav.length : ℝ) / rate ≤ b) →
      modify_comment_duration rate tsm wav speed tmin tmax = .ok (wav, false)) := by
  have hmatch : ¬ tBoundsBad tmin tmax := by
    cases tmin with
    | none => cases tmax <;> simp [tBoundsBad]
    | some a =>
      cases tmax with
      | none => simp [tBoundsBad]
      | some b =>
        simp only [tBoundsBad]
        exact not_lt.mpr (hcfg a b rfl rfl)
  have hR : ((rate : ℝ)) ≠ 0 := by
    positivity
  have hL : ((wav.length : ℝ)) ≠ 0 := by
    have : (0 : ℝ) < wav.length := by exact_mod_cast hlen
    linarith
  have hS : speed ≠ 0 := ne_of_gt hs
  have p1 : modify_comment_duration rate tsm wav speed tmin tmax =
      if modifiedAlpha rate wav.length speed tmin tmax ≠ 1
      then .ok (tsm wav (modifiedAlpha rate wav.length speed tmin tmax), true)
      else .ok (wav, false) := by
    unfold modify_comment_duration
    rw [if_neg hmatch]
  have p2 : ∀ b, tmax = some b → b < 1 / speed * (wav.length : ℝ) / rate →
      (∀ a, tmin = some a → ¬ (1 / speed * (wav.length : ℝ) / rate < a)) →
      modifiedAlpha rate wav.length speed tmin tmax * (wav.length : ℝ) / rate = b := by
    intro b hb htc hmin
    subst hb
    unfold modifiedAlpha
    rw [if_neg (by
      cases hm : tmin with
      | none => simp
      | some a =>
        simp only [Option.elim]
        exact hmin a hm)]
    rw [if_pos (by
      simp only [Option.elim]
      exact htc)]
    simp only [Option.getD]
    have htcne : 1 / speed * (wav.length : ℝ) / rate ≠ 0 := by
      intro h0
      rw [h0] at htc
      have hb0 : b < 0 := htc
      have : (0 : ℝ) < 1 / speed * (wav.length : ℝ) / rate := by positivity
      rw [h0] at this
      exact lt_irrefl 0 this
    field_simp
    ring
  have p3 : ∀ a, tmin = some a → 1 / speed * (wav.length : ℝ) / rate < a →
      modifiedAlpha rate wav.length speed tmin tmax * (wav.length : ℝ) / rate = a := by
    intro a ha htc
    subst ha
    unfold modifiedAlpha
    rw [if_pos (by
      simp only [Option.elim]
      exact htc)]
    simp only [Option.getD]
    field_simp
    ring
  refine ⟨p1, p2, p3, ?_⟩
  intro hsp hmin hmax
  have halpha : modifiedAlpha rate wav.length speed tmin tmax = 1 := by
    unfold modifiedAlpha
    rw [if_neg (by
      cases hm : tmin with
      | none => simp
      | some a =>
        simp only [Option.elim]
        exact not_lt.mpr (hmin a hm))]
    rw [if_neg (by
      cases hm : tmax with
      | none => simp
      | some b =>
        simp only [Option.elim]
        exact not_lt.mpr (hmax b hm))]
    rw [hsp]
    norm_num
  rw [p1, halpha]
  norm_num

/-- Witness for C6 at a concrete input: a 2 s clip (20 samples at rate 10)
at `speed = 1` with `t_max = 1` is rescaled so its post-stretch duration is
exactly 1 s. -/
theorem C6_duration_adjust_witness :
    modifiedAlpha 10 (List.replicate 20 (1 : ℝ)).length 1 none (some 1) *
      ((List.replicate 20 (1 : ℝ)).length : ℝ) / 10 = 1 := by
  have h := C6_duration_adjust 10 (fun c _ => c) (List.replicate 20 (1 : ℝ))
    1 none (some 1) (by norm_num) (by simp) (by norm_num)
    (by intro a b ha hb; cases ha)
  refine h.2.1 1 rfl ?_ ?_
  · rw [List.length_replicate]
    norm_num
  · intro a ha
    cases ha

theorem exbind_ok {α β : Type} (a : α) (f : α → Except Err β) :
    (Except.ok a).bind f = f a := rfl

theorem exbind_error {α β : Type} (e : Err) (f : α → Except Err β) :
    ((Except.error e : Except Err α)).bind f = .error e := rfl

theorem exbindM_ok {α β : Type} (a : α) (f : α → Except Err β) :
    (Except.ok a >>= f) = f a := rfl

theorem exbindM_error {α β : Type} (e : Err) (f : α → Except Err β) :
    ((Except.error e : Except Err α) >>= f) = .error e := rfl

theorem exbind_eq_ok {α β : Type} {e : Except Err α} {f : α → Except Err β}
    {b : β} (h : e.bind f = .ok b) : ∃ a, e = .ok a ∧ f a = .ok b := by
  cases e with
  | ok a => exact ⟨a, rfl, h⟩
  | error err => cases h

theorem leftPadStep_pres_len {st : CState} {n nEnd : ℤ}
    {r : CState × ℤ × ℤ} (h : leftPadStep st n nEnd = .ok r)
    (hl : st.xres.length = st.track.length) :
    r.1.xres.length = r.1.track.length := by
  unfold leftPadStep at h
  by_cases hn : n < 0
  · rw [if_pos hn] at h
    by_cases hadd : |n| - st.padLeft < 0
    · rw [if_pos hadd] at h
      cases h
    · rw [if_neg hadd] at h
      injection h with h
      subst h
      simp [List.length_append, hl]
  · rw [if_neg hn] at h
    injection h with h
    subst h
    exact hl

theorem rightPadStep_pres_len (xres track : List ℝ) (nEnd : ℤ)
    (hl : xres.length = track.length) :
    (rightPadStep xres track nEnd).1.length =
      (rightPadStep xres track nEnd).2.length := by
  unfold rightPadStep
  split
  · simp [List.length_append, hl]
  · exact hl

/-- Each iteration of the placement loop pads both buffers identically and
the in-place accumulation keeps the track length, so index alignment of the
two buffers is preserved. -/
theorem processComment_pres_len {α : Type} (rate : ℕ) (filters : List Biquad)
    (collab : Collab α) (p : CParams) (glob : ℝ) (st st' : CState)
    (cm : ℝ × α) (hl : st.xres.length = st.track.length)
    (h : processComment rate filters collab p glob st cm = .ok st') :
    st'.xres.length = st'.track.length := by
  unfold processComment at h
  obtain ⟨md, hmd, h⟩ := exbind_eq_ok h
  obtain ⟨lp, hlp, h⟩ := exbind_eq_ok h
  obtain ⟨lLocal, hll, h⟩ := exbind_eq_ok h
  obtain ⟨cL, hcl, h⟩ := exbind_eq_ok h
  obtain ⟨tr3, htr, h⟩ := exbind_eq_ok h
  injection h with h
  subst h
  show (rightPadStep lp.1.xres lp.1.track lp.2.2).1.length = tr3.length
  rw [sliceAddInto_length htr]
  exact rightPadStep_pres_len _ _ _ (leftPadStep_pres_len hlp hl)

/-- The loop invariant: the original-signal buffer and the comment track
keep equal lengths across the whole placement loop. -/
theorem commentLoop_pres_len {α : Type} (rate : ℕ) (filters : List Biquad)
    (collab : Collab α) (p : CParams) (glob : ℝ)
    (comments : List (ℝ × α)) (st st' : CState)
    (hl : st.xres.length = st.track.length)
    (h : comments.foldlM (processComment rate filters collab p glob) st = .ok st') :
    st'.xres.length = st'.track.length := by
  induction comments generalizing st with
  | nil =>
    rw [List.foldlM_nil] at h
    injection h with h
    subst h
    exact hl
  | cons c cs ih =>
    rw [List.foldlM_cons] at h
    obtain ⟨s1, hs1, h⟩ := exbind_eq_ok h
    exact ih s1 (processComment_pres_len rate filters collab p glob st s1 c hl hs1) h

/-- C10: whenever a comment's end index `n_end` reaches or exceeds the
current buffer length `L` (including the boundary case `n_end = L`, where
the half-open window `[n, n_end)` would already fit), both buffers are
right-padded by exactly `n_end - (L - 1)` zeros, making the new length
`n_end + 1` — one sample beyond what the window requires; and the two
buffers keep equal lengths throughout the placement loop. -/
theorem C10_right_padding :
    (∀ (xres track : List ℝ) (nEnd : ℤ), (track.length : ℤ) ≤ nEnd →
      xres.length = track.length →
      ((rightPadStep xres track nEnd).2.length : ℤ) = nEnd + 1 ∧
      ((rightPadStep xres track nEnd).1.length : ℤ) = nEnd + 1 ∧
      (rightPadStep xres track nEnd).2.length =
        track.length + (nEnd - ((track.length : ℤ) - 1)).toNat) ∧
    (∀ (rate : ℕ) (filters : List Biquad) (collab : Collab ℕ)
      (p : CParams) (glob : ℝ) (comments : List (ℝ × ℕ)) (st st' : CState),
      st.xres.length = st.track.length →
      comments.foldlM (processComment rate filters collab p glob) st = .ok st' →
      st'.xres.length = st'.track.length) := by
  constructor
  · intro xres track nEnd h hl
    unfold rightPadStep
    rw [if_pos h]
    refine ⟨?_, ?_, ?_⟩
    · simp only [List.length_append, zeros, List.length_replicate]
      push_cast
      omega
    · simp only [List.length_append, zeros, List.length_replicate]
      push_cast
      omega
    · simp only [List.length_append, zeros, List.length_replicate]
  · intro rate filters collab p glob comments st st' hl h
    exact commentLoop_pres_len rate filters collab p glob comments st st' hl h

/-- Witness for C10 at the boundary case `n_end = L`: both length-5 buffers
are padded to length 6 (`n_end + 1`), by `n_end - (L - 1) = 1` zero. -/
theorem C10_right_padding_witness :
    ((rightPadStep (zeros 5) (zeros 5) 5).2.length : ℤ) = 5 + 1 ∧
    (rightPadStep (zeros 5) (zeros 5) 5).2.length =
      (zeros 5).length + ((5 : ℤ) - (((zeros 5).length : ℤ) - 1)).toNat := by
  have h := C10_right_padding.1 (zeros 5) (zeros 5) 5
    (by simp [zeros]) rfl
  exact ⟨h.1, h.2.2⟩

/-- C1 (amended): the left-padding branch prepends
`|n| - left_pad_offset` zeros to both buffers (raising a `ValueError` when
that quantity is negative, i.e. when `left_pad_offset > |n|`), increases
`left_pad_offset` by the same amount, and shifts `n` and `n_end` by it, so
the invariant `actual_index = nominal_index + left_pad_offset` is
preserved; the shifted start index is non-negative whenever
`left_pad_offset` was zero before the comment, but when it was already
positive the shifted start equals `-left_pad_offset` and is still
negative, so the clip does NOT land at the index of its timestamp. -/
theorem C1_left_pad_amended :
    (∀ (st : CState) (n nEnd : ℤ) (r : CState × ℤ × ℤ), 0 ≤ st.padLeft →
      leftPadStep st n nEnd = .ok r →
      (r.2.1 - r.1.padLeft = n - st.padLeft) ∧
      (r.2.2 - r.2.1 = nEnd - n) ∧
      (st.padLeft = 0 → 0 ≤ r.2.1) ∧
      (n < 0 → r.1.padLeft = st.padLeft + (|n| - st.padLeft) ∧
        (r.1.track.length : ℤ) = st.track.length + (|n| - st.padLeft) ∧
        (r.1.xres.length : ℤ) = st.xres.length + (|n| - st.padLeft)) ∧
      (n < 0 → 0 < st.padLeft → r.2.1 = -st.padLeft)) ∧
    (∀ (st : CState) (n nEnd : ℤ), n < 0 → |n| - st.padLeft < 0 →
      leftPadStep st n nEnd = .error .padNeg) := by
  constructor
  · intro st n nEnd r hpl h
    unfold leftPadStep at h
    by_cases hn : n < 0
    · rw [if_pos hn] at h
      have habs : |n| = -n := abs_of_neg hn
      by_cases hadd : |n| - st.padLeft < 0
      · rw [if_pos hadd] at h
        cases h
      · rw [if_neg hadd] at h
        injection h with h
        subst h
        refine ⟨?_, ?_, ?_, ?_, ?_⟩
        · show n + (|n| - st.padLeft) - (st.padLeft + (|n| - st.padLeft)) = _
          omega
        · show nEnd + (|n| - st.padLeft) - (n + (|n| - st.padLeft)) = _
          omega
        · intro h0
          show 0 ≤ n + (|n| - st.padLeft)
          omega
        · intro _
          refine ⟨rfl, ?_, ?_⟩
          · show ((zeros (|n| - st.padLeft).toNat ++ st.track).length : ℤ) = _
            simp only [List.length_append, zeros, List.length_replicate]
            push_cast
            omega
          · show ((zeros (|n| - st.padLeft).toNat ++ st.xres).length : ℤ) = _
            simp only [List.length_append, zeros, List.length_replicate]
            push_cast
            omega
        · intro _ hpos
          show n + (|n| - st.padLeft) = -st.padLeft
          omega
    · rw [if_neg hn] at h
      injection h with h
      subst h
      dsimp only
      refine ⟨rfl, by omega, ?_, ?_, ?_⟩
      · intro _
        omega
      · intro hn'
        exact absurd hn' hn
      · intro hn'
        exact absurd hn' hn
  · intro st n nEnd hn hadd
    unfold leftPadStep
    rw [if_pos hn, if_pos hadd]

/-- Witness for C1 (amended) at a concrete input: a first comment with
nominal start `-3` and no prior padding gets shifted start 0 and the
invariant holds. -/
theorem C1_left_pad_amended_witness :
    (0 : ℤ) ≤ ((⟨zeros 5, zeros 5, 3⟩, 0, 2) : CState × ℤ × ℤ).2.1 ∧
    ((⟨zeros 5, zeros 5, 3⟩, 0, 2) : CState × ℤ × ℤ).2.1 -
      ((⟨zeros 5, zeros 5, 3⟩, 0, 2) : CState × ℤ × ℤ).1.padLeft =
      (-3 : ℤ) - 0 := by
  have hlp : leftPadStep ⟨zeros 2, zeros 2, 0⟩ (-3) (-1) =
      .ok (⟨zeros 5, zeros 5, 3⟩, 0, 2) := rfl
  have h := C1_left_pad_amended.1 ⟨zeros 2, zeros 2, 0⟩ (-3) (-1) _ le_rfl hlp
  exact ⟨h.2.2.1 rfl, h.1⟩

/-- Characterization of one successful placement-loop iteration by its
sub-steps. -/
theorem processComment_eval {α : Type} (rate : ℕ) (filters : List Biquad)
    (collab : Collab α) (p : CParams) (g : ℝ) (st : CState) (cm : ℝ × α)
    (c : List ℝ) (f : Bool) (n0 : ℤ) (lp : CState × ℤ × ℤ) (lL cL : ℝ)
    (tr : List ℝ)
    (hmd : modify_comment_duration rate collab.tsm
      (collab.trim (collab.synth cm.2)) p.speed p.tmin p.tmax = .ok (c, f))
    (hn0 : get_comment_start rate c cm.1 p.posRel p.posOff + st.padLeft = n0)
    (hlp : leftPadStep st n0 (n0 + (c.length : ℤ)) = .ok lp)
    (hlL : measureMonoR rate filters
      (pySlice (rightPadStep lp.1.xres lp.1.track lp.2.2).1 lp.2.1 lp.2.2)
      (-70) = .ok lL)
    (hcL : measureMonoR rate filters c (-70) = .ok cL)
    (htr : sliceAddInto (rightPadStep lp.1.xres lp.1.track lp.2.2).2
      lp.2.1 lp.2.2
      (pylnNormalize c cL (p.wGlobLoc * (lL + p.offsetLoc)
        + (1 - p.wGlobLoc) * (g + p.offsetGlob))) = .ok tr) :
    processComment rate filters collab p g st cm =
      .ok ⟨(rightPadStep lp.1.xres lp.1.track lp.2.2).1, tr, lp.1.padLeft⟩ := by
  unfold processComment
  show (modify_comment_duration rate collab.tsm
    (collab.trim (collab.synth cm.2)) p.speed p.tmin p.tmax).bind _ = _
  rw [hmd, exbind_ok]
  show (leftPadStep st
    (get_comment_start rate c cm.1 p.posRel p.posOff + st.padLeft)
    (get_comment_start rate c cm.1 p.posRel p.posOff + st.padLeft
      + (c.length : ℤ))).bind _ = _
  rw [hn0, hlp, exbind_ok]
  show (measureMonoR rate filters
    (pySlice (rightPadStep lp.1.xres lp.1.track lp.2.2).1 lp.2.1 lp.2.2)
    (-70)).bind _ = _
  rw [hlL, exbind_ok]
  show (measureMonoR rate filters c (-70)).bind _ = _
  rw [hcL, exbind_ok]
  show (sliceAddInto (rightPadStep lp.1.xres lp.1.track lp.2.2).2
    lp.2.1 lp.2.2
    (pylnNormalize c cL (p.wGlobLoc * (lL + p.offsetLoc)
      + (1 - p.wGlobLoc) * (g + p.offsetGlob)))).bind _ = _
  rw [htr, exbind_ok]

/-- Characterization of a placement-loop iteration that fails at the final
in-place accumulation (numpy broadcast error of `track[n:n_end] += c`). -/
theorem processComment_eval_err {α : Type} (rate : ℕ) (filters : List Biquad)
    (collab : Collab α) (p : CParams) (g : ℝ) (st : CState) (cm : ℝ × α)
    (c : List ℝ) (f : Bool) (n0 : ℤ) (lp : CState × ℤ × ℤ) (lL cL : ℝ)
    (er : Err)
    (hmd : modify_comment_duration rate collab.tsm
      (collab.trim (collab.synth cm.2)) p.speed p.tmin p.tmax = .ok (c, f))
    (hn0 : get_comment_start rate c cm.1 p.posRel p.posOff + st.padLeft = n0)
    (hlp : leftPadStep st n0 (n0 + (c.length : ℤ)) = .ok lp)
    (hlL : measureMonoR rate filters
      (pySlice (rightPadStep lp.1.xres lp.1.track lp.2.2).1 lp.2.1 lp.2.2)
      (-70) = .ok lL)
    (hcL : measureMonoR rate filters c (-70) = .ok cL)
    (htr : sliceAddInto (rightPadStep lp.1.xres lp.1.track lp.2.2).2
      lp.2.1 lp.2.2
      (pylnNormalize c cL (p.wGlobLoc * (lL + p.offsetLoc)
        + (1 - p.wGlobLoc) * (g + p.offsetGlob))) = .error er) :
    processComment rate filters collab p g st cm = .error er := by
  unfold processComment
  show (modify_comment_duration rate collab.tsm
    (collab.trim (collab.synth cm.2)) p.speed p.tmin p.tmax).bind _ = _
  rw [hmd, exbind_ok]
  show (leftPadStep st
    (get_comment_start rate c cm.1 p.posRel p.posOff + st.padLeft)
    (get_comment_start rate c cm.1 p.posRel p.posOff + st.padLeft
      + (c.length : ℤ))).bind _ = _
  rw [hn0, hlp, exbind_ok]
  show (measureMonoR rate filters
    (pySlice (rightPadStep lp.1.xres lp.1.track lp.2.2).1 lp.2.1 lp.2.2)
    (-70)).bind _ = _
  rw [hlL, exbind_ok]
  show (measureMonoR rate filters c (-70)).bind _ = _
  rw [hcL, exbind_ok]
  show (sliceAddInto (rightPadStep lp.1.xres lp.1.track lp.2.2).2
    lp.2.1 lp.2.2
    (pylnNormalize c cL (p.wGlobLoc * (lL + p.offsetLoc)
      + (1 - p.wGlobLoc) * (g + p.offsetGlob)))).bind _ = _
  rw [htr, exbind_error]

/-- With `speed = 1` and no duration bounds the clip is passed through
unchanged and the stretch primitive is not invoked. -/
theorem modify_speed1_nobounds (rate : ℕ) (tsm : List ℝ → ℝ → List ℝ)
    (wav : List ℝ) :
    modify_comment_duration rate tsm wav 1 none none = .ok (wav, false) := by
  unfold modify_comment_duration
  rw [if_neg (by simp [tBoundsBad])]
  have halpha : modifiedAlpha rate wav.length 1 none none = 1 := by
    unfold modifiedAlpha
    simp only [Option.elim]
    rw [if_neg not_false, if_neg not_false]
    norm_num
  show (if modifiedAlpha rate wav.length 1 none none ≠ 1 then _ else _) = _
  rw [halpha]
  simp

theorem AllZ.rightPad1 {x t : List ℝ} (hx : AllZ x) (e : ℤ) :
    AllZ (rightPadStep x t e).1 := by
  unfold rightPadStep
  split
  · exact hx.append (allZ_zeros _)
  · exact hx

theorem AllZ.rightPad2 {x t : List ℝ} (ht : AllZ t) (e : ℤ) :
    AllZ (rightPadStep x t e).2 := by
  unfold rightPadStep
  split
  · exact ht.append (allZ_zeros _)
  · exact ht

theorem zipWith_add_zeros (n : ℕ) :
    List.zipWith (· + ·) (zeros n) (zeros n) = zeros n := by
  induction n with
  | zero => rfl
  | succ k ih =>
    show List.zipWith (· + ·) ((0 : ℝ) :: zeros k) ((0 : ℝ) :: zeros k) =
      (0 : ℝ) :: zeros k
    rw [List.zipWith_cons_cons, ih, add_zero]

/-- With `t_min > t_max` (both given), every placement-loop iteration
fails immediately at the duration-adjustment assertion, after the comment
has already been synthesized and trimmed. -/
theorem processComment_config {α : Type} (rate : ℕ) (filters : List Biquad)
    (collab : Collab α) (p : CParams) (g : ℝ) (st : CState) (cm : ℝ × α)
    (hbad : tBoundsBad p.tmin p.tmax) :
    processComment rate filters collab p g st cm = .error .config := by
  unfold processComment
  show (modify_comment_duration rate collab.tsm
    (collab.trim (collab.synth cm.2)) p.speed p.tmin p.tmax).bind _ = _
  have hmd : modify_comment_duration rate collab.tsm
      (collab.trim (collab.synth cm.2)) p.speed p.tmin p.tmax =
      .error .config := by
    unfold modify_comment_duration
    rw [if_pos hbad]
  rw [hmd, exbind_error]

/-- `Commenter.__call__` on an empty comment list: the loop body never
runs, the comment track stays all-zero, and the superposition returns the
resampled input unchanged. -/
theorem commenter_call_nil {α : Type} (rate : ℕ) (filters : List Biquad)
    (collab : Collab α) (xOrig : List ℝ) (xFs : ℝ) (p : CParams) (g : ℝ)
    (hg : measureMonoR rate filters (collab.resample xOrig xFs (rate : ℝ))
      (-70) = .ok g) :
    commenter_call rate filters collab xOrig xFs [] p =
      .ok (collab.resample (List.zipWith (· + ·)
          (collab.resample xOrig xFs (rate : ℝ))
          (List.replicate (collab.resample xOrig xFs (rate : ℝ)).length 0))
          (rate : ℝ) xFs,
        collab.resample
          (List.replicate (collab.resample xOrig xFs (rate : ℝ)).length 0)
          (rate : ℝ) xFs) := by
  unfold commenter_call
  show (measureMonoR rate filters (collab.resample xOrig xFs (rate : ℝ))
    (-70)).bind _ = _
  rw [hg, exbind_ok]
  show (List.foldlM (processComment rate filters collab p g)
    (⟨collab.resample xOrig xFs (rate : ℝ),
      List.replicate (collab.resample xOrig xFs (rate : ℝ)).length 0, 0⟩ : CState)
    ([] : List (ℝ × α))).bind _ = _
  rw [List.foldlM_nil]
  rfl

/-- `Commenter.__call__` on a two-comment list whose second iteration
fails: the error propagates out of the loop. -/
theorem commenter_call_two_err {α : Type} (rate : ℕ) (filters : List Biquad)
    (collab : Collab α) (xOrig : List ℝ) (xFs : ℝ) (c1 c2 : ℝ × α)
    (p : CParams) (g : ℝ) (st1 : CState) (er : Err)
    (hg : measureMonoR rate filters (collab.resample xOrig xFs (rate : ℝ))
      (-70) = .ok g)
    (h1 : processComment rate filters collab p g
      ⟨collab.resample xOrig xFs (rate : ℝ),
        List.replicate (collab.resample xOrig xFs (rate : ℝ)).length 0, 0⟩
      c1 = .ok st1)
    (h2 : processComment rate filters collab p g st1 c2 = .error er) :
    commenter_call rate filters collab xOrig xFs [c1, c2] p = .error er := by
  unfold commenter_call
  show (measureMonoR rate filters (collab.resample xOrig xFs (rate : ℝ))
    (-70)).bind _ = _
  rw [hg, exbind_ok]
  show (List.foldlM (processComment rate filters collab p g)
    (⟨collab.resample xOrig xFs (rate : ℝ),
      List.replicate (collab.resample xOrig xFs (rate : ℝ)).length 0, 0⟩ : CState)
    [c1, c2]).bind _ = _
  rw [List.foldlM_cons, h1, exbindM_ok, List.foldlM_cons, h2, exbindM_error,
    exbind_error]

/-- Trivial external collaborators: empty synthesis, identity trimming,
identity time-stretch, identity resampling. -/
def collabTrivial : Collab ℕ := ⟨fun _ => [], id, fun c _ => c, fun x _ _ => x⟩

/-- A parameter set with `t_min = 2 > 1 = t_max` (violating the
configuration contract). -/
noncomputable def pBad : CParams := ⟨1, some 2, some 1, 0, 0, -5, -5, 0.5⟩

/-- C2 (counterexample): with `t_min = 2 > t_max = 1` and an EMPTY comment
list, `Commenter.__call__` does not raise at all — it runs to completion
and returns the untouched signal and the silent comment track.  The
assertion lives in `_modify_comment_duration`, which is only called from
inside the per-comment loop, so it is not "raised before any processing
begins". -/
theorem C2_config_counterexample :
    pBad.tmax.getD 0 < pBad.tmin.getD 0 ∧
    commenter_call 100 idCascade collabTrivial (zeros 8) 100
      ([] : List (ℝ × ℕ)) pBad = .ok (zeros 8, zeros 8) := by
  constructor
  · show (1 : ℝ) < 2
    norm_num
  · have hg : measureMonoR 100 idCascade
        (collabTrivial.resample (zeros 8) 100 ((100 : ℕ) : ℝ)) (-70) =
        .ok (-70) := measureMonoR_silent 100 idCascade (-70) (allZ_zeros 8)
    rw [commenter_call_nil 100 idCascade collabTrivial (zeros 8) 100 pBad
      (-70) hg]
    show Except.ok (List.zipWith (· + ·) (zeros 8) (zeros 8), zeros 8) =
      (Except.ok (zeros 8, zeros 8) : Except Err (List ℝ × List ℝ))
    rw [zipWith_add_zeros 8]

/-- C2 (amended): when the comment list is nonempty and `t_min > t_max`
(both given), the `AssertionError` (the spec's ConfigError) is raised while
the FIRST comment is processed — after that comment has been synthesized
and trimmed, before any buffer is padded or mixed — and propagates out of
`Commenter.__call__`. -/
theorem C2_config_error_amended {α : Type} (rate : ℕ) (filters : List Biquad)
    (collab : Collab α) (xOrig : List ℝ) (xFs : ℝ) (c : ℝ × α)
    (rest : List (ℝ × α)) (p : CParams) (a b : ℝ)
    (hmin : p.tmin = some a) (hmax : p.tmax = some b) (hba : b < a) :
    commenter_call rate filters collab xOrig xFs (c :: rest) p =
      .error .config := by
  have hbad : tBoundsBad p.tmin p.tmax := by
    rw [hmin, hmax]
    exact hba
  obtain ⟨g, hg⟩ := measureMonoR_isOk rate filters
    (collab.resample xOrig xFs (rate : ℝ)) (-70)
  unfold commenter_call
  show (measureMonoR rate filters (collab.resample xOrig xFs (rate : ℝ))
    (-70)).bind _ = _
  rw [hg, exbind_ok]
  show (List.foldlM (processComment rate filters collab p g)
    (⟨collab.resample xOrig xFs (rate : ℝ),
      List.replicate (collab.resample xOrig xFs (rate : ℝ)).length 0, 0⟩ : CState)
    (c :: rest)).bind _ = _
  rw [List.foldlM_cons,
    processComment_config rate filters collab p g _ c hbad,
    exbindM_error, exbind_error]

/-- Witness for C2 (amended) at a concrete input: one comment, bounds
`t_min = 2 > t_max = 1`. -/
theorem C2_config_error_amended_witness :
    commenter_call 100 idCascade collabTrivial (zeros 4) 100
      [((0 : ℝ), (0 : ℕ))] pBad = .error .config :=
  C2_config_error_amended 100 idCascade collabTrivial (zeros 4) 100
    ((0 : ℝ), (0 : ℕ)) [] pBad 2 1 rfl rfl (by norm_num)

theorem AllZ.headI {l : List ℝ} (h : AllZ l) : l.headI = 0 := by
  cases l with
  | nil => rfl
  | cons x xs => exact h x (List.mem_cons_self _ _)

/-- The right-padded track is at least as long as a nonnegative `n_end`. -/
theorem rightPadStep_track_len_ge (x t : List ℝ) (e : ℤ) (he : 0 ≤ e) :
    e.toNat < (rightPadStep x t e).2.length ∨
      (e.toNat < t.length ∧ (rightPadStep x t e).2 = t) := by
  unfold rightPadStep
  by_cases hc : ((t.length : ℤ) ≤ e)
  · rw [if_pos hc]
    left
    simp only [List.length_append, zeros, List.length_replicate]
    omega
  · rw [if_neg hc]
    right
    exact ⟨by omega, rfl⟩

/-- C9: the nominal start sample of every comment is
`round((t + pos_offset_abs) * rate - pos_rel * len(clip))`, to which
`padding_left` is added (first two conjuncts); with `pos_rel = 0`,
`pos_offset_abs = 0`, `t = 0` and no prior left padding, the computed start
index is 0 and the normalized clip is accumulated starting at output index
0 of the comment track (its first sample lands at index 0). -/
theorem C9_placement_at_zero {α : Type} (rate : ℕ) (filters : List Biquad)
    (collab : Collab α) (p : CParams) (g : ℝ) (st : CState) (cm : ℝ × α)
    (c : List ℝ) (f : Bool)
    (hmd : modify_comment_duration rate collab.tsm
      (collab.trim (collab.synth cm.2)) p.speed p.tmin p.tmax = .ok (c, f))
    (hrel : p.posRel = 0) (hoff : p.posOff = 0) (ht : cm.1 = 0)
    (hpl : st.padLeft = 0) (htz : AllZ st.track) (hc0 : 0 < c.length) :
    get_comment_start rate c cm.1 p.posRel p.posOff =
      pyround ((cm.1 + p.posOff) * rate - p.posRel * (c.length : ℝ)) ∧
    get_comment_start rate c cm.1 p.posRel p.posOff + st.padLeft = 0 ∧
    ∃ (st' : CState) (gain : ℝ),
      processComment rate filters collab p g st cm = .ok st' ∧
      st'.track.headI = c.headI * gain ∧ st'.padLeft = 0 := by
  have hn : get_comment_start rate c cm.1 p.posRel p.posOff = 0 := by
    unfold get_comment_start
    rw [ht, hrel, hoff]
    have harg : ((0 : ℝ) + 0) * rate - 0 * (c.length : ℝ) = ((0 : ℤ) : ℝ) := by
      norm_num
    rw [harg, pyround_intCast]
  refine ⟨rfl, by rw [hn, hpl]; omega, ?_⟩
  have hn0 : get_comment_start rate c cm.1 p.posRel p.posOff + st.padLeft
      = 0 := by rw [hn, hpl]; omega
  have hlp : leftPadStep st 0 (0 + (c.length : ℤ)) =
      .ok (st, 0, 0 + (c.length : ℤ)) := rfl
  obtain ⟨lL, hlL⟩ := measureMonoR_isOk rate filters
    (pySlice (rightPadStep st.xres st.track (0 + (c.length : ℤ))).1
      0 (0 + (c.length : ℤ))) (-70)
  obtain ⟨cL, hcL⟩ := measureMonoR_isOk rate filters c (-70)
  -- the slice write window [0, len c) fits after the right padding
  have hfits : c.length ≤
      (rightPadStep st.xres st.track (0 + (c.length : ℤ))).2.length := by
    rcases rightPadStep_track_len_ge st.xres st.track (0 + (c.length : ℤ))
      (by omega) with hcase | hcase
    · omega
    · rw [hcase.2]
      omega
  have hra : pySliceResolve 0
      (rightPadStep st.xres st.track (0 + (c.length : ℤ))).2.length = 0 := by
    unfold pySliceResolve
    rw [if_neg (by omega)]
    omega
  have hrb : pySliceResolve (0 + (c.length : ℤ))
      (rightPadStep st.xres st.track (0 + (c.length : ℤ))).2.length
      = c.length := by
    unfold pySliceResolve
    rw [if_neg (by omega)]
    omega
  set target := p.wGlobLoc * (lL + p.offsetLoc)
    + (1 - p.wGlobLoc) * (g + p.offsetGlob) with htarget
  have hcnlen : (pylnNormalize c cL target).length = c.length := by
    unfold pylnNormalize
    rw [List.length_map]
  have htr : sliceAddInto
      (rightPadStep st.xres st.track (0 + (c.length : ℤ))).2
      0 (0 + (c.length : ℤ)) (pylnNormalize c cL target) =
      .ok ((rightPadStep st.xres st.track (0 + (c.length : ℤ))).2.take 0 ++
        List.zipWith (· + ·)
          (((rightPadStep st.xres st.track (0 + (c.length : ℤ))).2.drop 0).take
            (c.length - 0))
          (pylnNormalize c cL target) ++
        (rightPadStep st.xres st.track (0 + (c.length : ℤ))).2.drop
          (0 + (c.length - 0))) := by
    unfold sliceAddInto
    rw [hra, hrb]
    dsimp only
    rw [hcnlen, if_pos (by omega : c.length - 0 = c.length)]
  have heval := processComment_eval rate filters collab p g st cm c f 0
    (st, 0, 0 + (c.length : ℤ)) lL cL _ hmd hn0 hlp hlL hcL htr
  refine ⟨_, (10 : ℝ) ^ ((target - cL) / 20), heval, ?_, hpl⟩
  -- compute the head of the written track
  obtain ⟨x, c', rfl⟩ : ∃ x c', c = x :: c' := by
    cases c with
    | nil => cases hc0
    | cons x c' => exact ⟨x, c', rfl⟩
  obtain ⟨a, A', hA⟩ : ∃ a A',
      (rightPadStep st.xres st.track (0 + ((x :: c').length : ℤ))).2 =
        a :: A' := by
    cases hh : (rightPadStep st.xres st.track (0 + ((x :: c').length : ℤ))).2 with
    | nil =>
      rw [hh] at hfits
      simp at hfits
    | cons a A' => exact ⟨a, A', rfl⟩
  have ha0 : a = 0 := by
    have hz2 := @AllZ.rightPad2 st.xres st.track htz
      (0 + ((x :: c').length : ℤ))
    rw [hA] at hz2
    exact hz2 a (List.mem_cons_self _ _)
  show ((rightPadStep st.xres st.track (0 + ((x :: c').length : ℤ))).2.take 0 ++
      List.zipWith (· + ·) _ _ ++ _).headI = _
  rw [hA]
  show (List.zipWith (· + ·) ((a :: A').take ((x :: c').length - 0))
      (pylnNormalize (x :: c') cL target) ++ _).headI = _
  have htake : (a :: A').take ((x :: c').length - 0) =
      a :: A'.take ((x :: c').length - 1) := by
    simp [List.take_succ_cons]
  rw [htake]
  show (((a + x * (10 : ℝ) ^ ((target - cL) / 20)) ::
    List.zipWith (· + ·) (A'.take ((x :: c').length - 1))
      (pylnNormalize c' cL target)) ++ _).headI = _
  rw [ha0]
  show 0 + x * (10 : ℝ) ^ ((target - cL) / 20) = _
  rw [zero_add]
  rfl

/-- Parameters with `speed = 1`, no duration bounds, start-anchored
placement and default loudness offsets. -/
noncomputable def pNoB : CParams := ⟨1, none, none, 0, 0, -5, -5, 0.5⟩

/-- Collaborators used in the C9 witness: the synthesized-and-trimmed clip
is four samples of ones. -/
def collabC9 : Collab ℕ := ⟨fun _ => List.replicate 4 (1 : ℝ), id,
  fun c _ => c, fun x _ _ => x⟩

/-- Witness for C9 at a concrete input: a comment at `t = 0` with
`pos_rel = 0`, `pos_offset_abs = 0` and no prior padding has start index 0. -/
theorem C9_placement_at_zero_witness :
    get_comment_start 100 (collabC9.trim (collabC9.synth (0 : ℕ)))
      ((0 : ℝ), (0 : ℕ)).1 pNoB.posRel pNoB.posOff +
      (⟨zeros 8, zeros 8, 0⟩ : CState).padLeft = 0 := by
  have h := C9_placement_at_zero 100 idCascade collabC9 pNoB (-70)
    ⟨zeros 8, zeros 8, 0⟩ ((0 : ℝ), (0 : ℕ))
    (collabC9.trim (collabC9.synth (0 : ℕ))) false
    (modify_speed1_nobounds 100 collabC9.tsm
      (collabC9.trim (collabC9.synth (0 : ℕ))))
    rfl rfl rfl rfl (allZ_zeros 8)
    (by show 0 < (List.replicate 4 (1 : ℝ)).length; simp)
  exact h.2.1

/-- Collaborators of the C1 counterexample: comment `k` synthesizes (and
trims) to `10 + 10 k` samples of silence. -/
def collabC1 : Collab ℕ := ⟨fun k => zeros (10 + 10 * k), id,
  fun c _ => c, fun x _ _ => x⟩

/-- Second iteration of the C1 counterexample: with `padding_left = 5`
already positive and nominal start `-12`, the code pads by
`|-12 + 5| - 5 = 2` only, leaving the shifted start at `-5`; the negative
start makes `track[-5:15]` a 4-element slice, and adding the 20-sample
clip to it raises the numpy broadcast `ValueError`. -/
theorem processSecond_err (xs tr : List ℝ) (hlt : tr.length = 13) :
    processComment 100 idCascade collabC1 pNoB (-70) ⟨xs, tr, 5⟩
      ((-0.12 : ℝ), (1 : ℕ)) = .error .broadcast := by
  have hn0 : get_comment_start 100
      (collabC1.trim (collabC1.synth (((-0.12 : ℝ), (1 : ℕ)).2)))
      ((-0.12 : ℝ), (1 : ℕ)).1 pNoB.posRel pNoB.posOff +
      (⟨xs, tr, 5⟩ : CState).padLeft = -7 := by
    show get_comment_start 100 (collabC1.trim (collabC1.synth 1))
      (-0.12) 0 0 + 5 = -7
    unfold get_comment_start
    have harg : ((-0.12 : ℝ) + 0) * ((100 : ℕ) : ℝ) -
        0 * (((collabC1.trim (collabC1.synth 1)).length : ℕ) : ℝ) =
        (((-12 : ℤ)) : ℝ) := by
      push_cast
      ring
    rw [harg, pyround_intCast]
    omega
  have hlp : leftPadStep ⟨xs, tr, 5⟩ (-7)
      (-7 + ((collabC1.trim (collabC1.synth (((-0.12 : ℝ), (1 : ℕ)).2))).length : ℤ)) =
      .ok (⟨zeros 2 ++ xs, zeros 2 ++ tr, 7⟩, -5, 15) := rfl
  have hlen2 : (zeros 2 ++ tr).length = 15 := by
    simp [zeros, hlt]
  have hrp : rightPadStep (zeros 2 ++ xs) (zeros 2 ++ tr) 15 =
      ((zeros 2 ++ xs) ++ zeros 1, (zeros 2 ++ tr) ++ zeros 1) := by
    unfold rightPadStep
    rw [hlen2]
    rw [if_pos (by norm_num)]
    norm_num
  obtain ⟨lL, hlL⟩ := measureMonoR_isOk 100 idCascade
    (pySlice (rightPadStep (zeros 2 ++ xs) (zeros 2 ++ tr) 15).1 (-5) 15)
    (-70)
  have hcL : measureMonoR 100 idCascade
      (collabC1.trim (collabC1.synth (((-0.12 : ℝ), (1 : ℕ)).2))) (-70) =
      .ok (-70) :=
    measureMonoR_silent 100 idCascade (-70) (allZ_zeros 20)
  apply processComment_eval_err 100 idCascade collabC1 pNoB (-70)
    ⟨xs, tr, 5⟩ ((-0.12 : ℝ), (1 : ℕ))
    (collabC1.trim (collabC1.synth (((-0.12 : ℝ), (1 : ℕ)).2))) false
    (-7) (⟨zeros 2 ++ xs, zeros 2 ++ tr, 7⟩, -5, 15) lL (-70) .broadcast
    (modify_speed1_nobounds 100 collabC1.tsm
      (collabC1.trim (collabC1.synth (((-0.12 : ℝ), (1 : ℕ)).2))))
    hn0 hlp hlL hcL
  -- the final in-place accumulation fails: slice length 4, clip length 20
  show sliceAddInto (rightPadStep (zeros 2 ++ xs) (zeros 2 ++ tr) 15).2
    (-5) 15 _ = _
  rw [hrp]
  show sliceAddInto ((zeros 2 ++ tr) ++ zeros 1) (-5) 15 _ = _
  have hL16 : ((zeros 2 ++ tr) ++ zeros 1).length = 16 := by
    simp [zeros, hlt]
  unfold sliceAddInto
  rw [hL16]
  have h1 : pySliceResolve (-5) 16 = 11 := rfl
  have h2 : pySliceResolve 15 16 = 15 := rfl
  rw [h1, h2]
  dsimp only
  have hcn : ∀ (m t : ℝ), (pylnNormalize
      (collabC1.trim (collabC1.synth (((-0.12 : ℝ), (1 : ℕ)).2))) m t).length =
      20 := by
    intro m t
    unfold pylnNormalize
    rw [List.length_map]
    rfl
  rw [hcn]
  rw [if_neg (by norm_num), if_neg (by norm_num)]

/-- C1 (counterexample): two comments, the first with nominal start `-5`
(which sets `padding_left = 5`), the second with nominal start `-12`.  The
claim says the second comment's clip also lands at a non-negative index
aligned with its timestamp; instead the shifted start stays negative
(`-5`, second conjunct) and the run CRASHES with a numpy broadcast
`ValueError` at the in-place accumulation (first conjunct). -/
theorem C1_left_pad_counterexample :
    commenter_call 100 idCascade collabC1 (zeros 8) 100
      [((-0.05 : ℝ), (0 : ℕ)), ((-0.12 : ℝ), (1 : ℕ))] pNoB =
      .error .broadcast ∧
    leftPadStep ⟨zeros 13, zeros 13, 5⟩ (-7) 13 =
      .ok (⟨zeros 15, zeros 15, 7⟩, -5, 15) ∧ (-5 : ℤ) < 0 := by
  refine ⟨?_, rfl, by norm_num⟩
  have hg : measureMonoR 100 idCascade
      (collabC1.resample (zeros 8) 100 ((100 : ℕ) : ℝ)) (-70) =
      .ok (-70) := measureMonoR_silent 100 idCascade (-70) (allZ_zeros 8)
  -- first iteration: nominal start -5, pad 5 on the left, window [0, 10)
  have hn0 : get_comment_start 100
      (collabC1.trim (collabC1.synth (((-0.05 : ℝ), (0 : ℕ)).2)))
      ((-0.05 : ℝ), (0 : ℕ)).1 pNoB.posRel pNoB.posOff +
      (⟨collabC1.resample (zeros 8) 100 ((100 : ℕ) : ℝ),
        List.replicate (collabC1.resample (zeros 8) 100
          ((100 : ℕ) : ℝ)).length 0, 0⟩ : CState).padLeft = -5 := by
    show get_comment_start 100 (collabC1.trim (collabC1.synth 0))
      (-0.05) 0 0 + 0 = -5
    unfold get_comment_start
    have harg : ((-0.05 : ℝ) + 0) * ((100 : ℕ) : ℝ) -
        0 * (((collabC1.trim (collabC1.synth 0)).length : ℕ) : ℝ) =
        (((-5 : ℤ)) : ℝ) := by
      push_cast
      ring
    rw [harg, pyround_intCast]
    omega
  have hlp : leftPadStep
      ⟨collabC1.resample (zeros 8) 100 ((100 : ℕ) : ℝ),
        List.replicate (collabC1.resample (zeros 8) 100
          ((100 : ℕ) : ℝ)).length 0, 0⟩ (-5)
      (-5 + ((collabC1.trim (collabC1.synth (((-0.05 : ℝ), (0 : ℕ)).2))).length : ℤ)) =
      .ok (⟨zeros 13, zeros 13, 5⟩, 0, 10) := rfl
  have hlL : measureMonoR 100 idCascade
      (pySlice (rightPadStep
        ((⟨zeros 13, zeros 13, 5⟩ : CState)).xres
        ((⟨zeros 13, zeros 13, 5⟩ : CState)).track 10).1 0 10) (-70) =
      .ok (-70) :=
    measureMonoR_silent 100 idCascade (-70)
      (((allZ_zeros 13).rightPad1 10).pySlice 0 10)
  have hcL1 : measureMonoR 100 idCascade
      (collabC1.trim (collabC1.synth (((-0.05 : ℝ), (0 : ℕ)).2))) (-70) =
      .ok (-70) :=
    measureMonoR_silent 100 idCascade (-70) (allZ_zeros 10)
  set cNorm1 : List ℝ := pylnNormalize
    (collabC1.trim (collabC1.synth (((-0.05 : ℝ), (0 : ℕ)).2))) (-70)
    (pNoB.wGlobLoc * (-70 + pNoB.offsetLoc)
      + (1 - pNoB.wGlobLoc) * (-70 + pNoB.offsetGlob)) with hcNorm1
  have htr : sliceAddInto (rightPadStep
      ((⟨zeros 13, zeros 13, 5⟩ : CState)).xres
      ((⟨zeros 13, zeros 13, 5⟩ : CState)).track 10).2 0 10 cNorm1 =
      .ok (List.zipWith (· + ·) (zeros 10) cNorm1 ++ zeros 3) := rfl
  have htl : (List.zipWith (· + ·) (zeros 10) cNorm1 ++ zeros 3).length
      = 13 := rfl
  have h1 := processComment_eval 100 idCascade collabC1 pNoB (-70)
    ⟨collabC1.resample (zeros 8) 100 ((100 : ℕ) : ℝ),
      List.replicate (collabC1.resample (zeros 8) 100
        ((100 : ℕ) : ℝ)).length 0, 0⟩ ((-0.05 : ℝ), (0 : ℕ))
    (collabC1.trim (collabC1.synth (((-0.05 : ℝ), (0 : ℕ)).2))) false
    (-5) (⟨zeros 13, zeros 13, 5⟩, 0, 10) (-70) (-70)
    (List.zipWith (· + ·) (zeros 10) cNorm1 ++ zeros 3)
    (modify_speed1_nobounds 100 collabC1.tsm
      (collabC1.trim (collabC1.synth (((-0.05 : ℝ), (0 : ℕ)).2))))
    hn0 hlp hlL hcL1 htr
  apply commenter_call_two_err 100 idCascade collabC1 (zeros 8) 100
    ((-0.05 : ℝ), (0 : ℕ)) ((-0.12 : ℝ), (1 : ℕ)) pNoB (-70)
    ⟨(rightPadStep ((⟨zeros 13, zeros 13, 5⟩ : CState)).xres
      ((⟨zeros 13, zeros 13, 5⟩ : CState)).track 10).1,
      List.zipWith (· + ·) (zeros 10) cNorm1 ++ zeros 3, 5⟩ .broadcast
    hg h1
  exact processSecond_err
    (rightPadStep ((⟨zeros 13, zeros 13, 5⟩ : CState)).xres
      ((⟨zeros 13, zeros 13, 5⟩ : CState)).track 10).1
    (List.zipWith (· + ·) (zeros 10) cNorm1 ++ zeros 3) htl

theorem list_getD_append {A : Type} (l1 l2 : List A) (n : ℕ) (d : A)
    (h : n < l1.length) : (l1 ++ l2).getD n d = l1.getD n d := by
  induction l1 generalizing n with
  | nil => simp at h
  | cons x xs ih =>
    cases n with
    | zero => rfl
    | succ k =>
      show (xs ++ l2).getD k d = xs.getD k d
      exact ih k (by simpa using h)

theorem list_getD_append_self {A : Type} (l1 : List A) (a : A) (d : A) :
    (l1 ++ [a]).getD l1.length d = a := by
  induction l1 with
  | nil => rfl
  | cons x xs ih => exact ih

theorem list_getD_set_ne {A : Type} (l : List A) (r r' : ℕ) (a d : A)
    (h : r' ≠ r) : (l.set r a).getD r' d = l.getD r' d := by
  induction l generalizing r r' with
  | nil => rfl
  | cons x xs ih =>
    cases r with
    | zero =>
      cases r' with
      | zero => exact absurd rfl h
      | succ k => rfl
    | succ m =>
      cases r' with
      | zero => rfl
      | succ k =>
        show (xs.set m a).getD k d = xs.getD k d
        exact ih m k (by omega)

theorem list_getD_set_self {A : Type} (l : List A) (r : ℕ) (a d : A)
    (h : r < l.length) : (l.set r a).getD r d = a := by
  induction l generalizing r with
  | nil => simp at h
  | cons x xs ih =>
    cases r with
    | zero => rfl
    | succ m => exact ih m (by simpa using h)

theorem readA_append {h : Heap} {r : ℕ} (hr : r < h.length) (a : NpAudio) :
    readA (h ++ [a]) r = readA h r :=
  list_getD_append h [a] r _ hr

theorem readA_append_self (h : Heap) (a : NpAudio) :
    readA (h ++ [a]) h.length = a :=
  list_getD_append_self h a _

theorem readA_writeA_ne {h : Heap} {r r' : ℕ} (hne : r' ≠ r) (a : NpAudio) :
    readA (writeA h r a) r' = readA h r' :=
  list_getD_set_ne h r r' a _ hne

theorem readA_writeA_self {h : Heap} {r : ℕ} (hr : r < h.length)
    (a : NpAudio) : readA (writeA h r a) r = a :=
  list_getD_set_self h r a _ hr

theorem writeA_length (h : Heap) (r : ℕ) (a : NpAudio) :
    (writeA h r a).length = h.length := by
  unfold writeA
  exact List.length_set h r a

theorem stageWriteA_length (st : Biquad) (h : Heap) (r : ℕ) :
    (stageWriteA st h r).length = h.length := by
  unfold stageWriteA
  exact writeA_length h r _

theorem filtersWriteA_length (filters : List Biquad) (h : Heap) (r : ℕ) :
    (filtersWriteA filters h r).length = h.length := by
  induction filters generalizing h with
  | nil => rfl
  | cons st sts ih =>
    show (filtersWriteA sts (stageWriteA st h r) r).length = h.length
    rw [ih (stageWriteA st h r)]
    exact writeA_length h r _

theorem filtersWriteA_read_other (filters : List Biquad) (h : Heap)
    (r r' : ℕ) (hne : r' ≠ r) :
    readA (filtersWriteA filters h r) r' = readA h r' := by
  induction filters generalizing h with
  | nil => rfl
  | cons st sts ih =>
    show readA (filtersWriteA sts (stageWriteA st h r) r) r' = _
    rw [ih (stageWriteA st h r)]
    exact readA_writeA_ne hne _

theorem filtersWriteA_read_self (filters : List Biquad) (h : Heap) (r : ℕ)
    (hr : r < h.length) :
    readA (filtersWriteA filters h r) r =
      ⟨(readA h r).isFloat, (readA h r).twoD,
        (readA h r).cols.map (applyFilters filters)⟩ := by
  induction filters generalizing h with
  | nil =>
    show readA h r = _
    have : (readA h r).cols.map (applyFilters []) = (readA h r).cols := by
      apply List.map_id''
      intro xs
      rfl
    rw [this]
  | cons st sts ih =>
    show readA (filtersWriteA sts (stageWriteA st h r) r) r = _
    rw [ih (stageWriteA st h r) (by rw [stageWriteA_length]; exact hr)]
    have hread : readA (stageWriteA st h r) r =
        ⟨(readA h r).isFloat, (readA h r).twoD,
          (readA h r).cols.map (biquadApply st)⟩ :=
      readA_writeA_self hr _
    rw [hread]
    show NpAudio.mk _ _ (((readA h r).cols.map (biquadApply st)).map
      (applyFilters sts)) = _
    rw [List.map_map]
    rfl

theorem momentaryH_fst (rate : ℕ) (filters : List Biquad) (h : Heap)
    (r : ℕ) (_hr : r < h.length) :
    (momentary_loudnessH rate filters h r).1 =
      momentary_loudness rate filters (readA h r) := by
  simp only [momentary_loudnessH, momentary_loudness, allocA]
  rw [readA_append_self]
  cases hv : valid_audio (readA h r) with
  | error e => rfl
  | ok u =>
    cases u
    show momResOf rate (numSamples (readA h r))
      (readA (filtersWriteA filters (h ++ [readA h r]) h.length) h.length).cols
      = (Except.ok ()).bind _
    rw [filtersWriteA_read_self filters _ h.length
      (by simp [List.length_append])]
    rw [readA_append_self]
    rfl

theorem momentaryH_read (rate : ℕ) (filters : List Biquad) (h : Heap)
    (r r' : ℕ) (hr' : r' < h.length) :
    readA (momentary_loudnessH rate filters h r).2 r' = readA h r' := by
  simp only [momentary_loudnessH, allocA]
  cases hv : valid_audio (readA (h ++ [readA h r]) h.length) with
  | error e =>
    show readA (h ++ [readA h r]) r' = _
    exact readA_append hr' _
  | ok u =>
    cases u
    show readA (filtersWriteA filters (h ++ [readA h r]) h.length) r' = _
    rw [filtersWriteA_read_other filters _ h.length r' (by omega)]
    exact readA_append hr' _

theorem momentaryH_len (rate : ℕ) (filters : List Biquad) (h : Heap)
    (r : ℕ) : h.length ≤ (momentary_loudnessH rate filters h r).2.length := by
  simp only [momentary_loudnessH, allocA]
  cases hv : valid_audio (readA (h ++ [readA h r]) h.length) with
  | error e =>
    show h.length ≤ (h ++ [readA h r]).length
    simp
  | ok u =>
    cases u
    show h.length ≤ (filtersWriteA filters (h ++ [readA h r]) h.length).length
    rw [filtersWriteA_length]
    simp

theorem integratedH_fst (rate : ℕ) (filters : List Biquad) (h : Heap)
    (r : ℕ) (_hr : r < h.length) :
    (integrated_loudnessH rate filters h r).1 =
      integrated_loudness rate filters (readA h r) := by
  simp only [integrated_loudnessH, integrated_loudness, allocA]
  rw [readA_append_self]
  cases hv : valid_audio (readA h r) with
  | error e => rfl
  | ok u =>
    cases u
    have hm := momentaryH_fst rate filters (h ++ [readA h r]) h.length
      (by simp)
    rw [readA_append_self] at hm
    rw [hm]
    cases hmm : momentary_loudness rate filters (readA h r) with
    | error e => rfl
    | ok mres =>
      cases mres with
      | multi m => rfl
      | single l z => rfl

theorem integratedH_read (rate : ℕ) (filters : List Biquad) (h : Heap)
    (r r' : ℕ) (hr' : r' < h.length) :
    readA (integrated_loudnessH rate filters h r).2 r' = readA h r' := by
  simp only [integrated_loudnessH, allocA]
  cases hv : valid_audio (readA (h ++ [readA h r]) h.length) with
  | error e =>
    show readA (h ++ [readA h r]) r' = _
    exact readA_append hr' _
  | ok u =>
    cases u
    cases hm1 : (momentary_loudnessH rate filters (h ++ [readA h r])
        h.length).1 with
    | error e =>
      show readA (momentary_loudnessH rate filters (h ++ [readA h r])
        h.length).2 r' = _
      rw [momentaryH_read rate filters _ h.length r' (by simp; omega)]
      exact readA_append hr' _
    | ok mres =>
      cases mres with
      | multi m =>
        show readA (momentary_loudnessH rate filters (h ++ [readA h r])
          h.length).2 r' = _
        rw [momentaryH_read rate filters _ h.length r' (by simp; omega)]
        exact readA_append hr' _
      | single l z =>
        show readA (momentary_loudnessH rate filters (h ++ [readA h r])
          h.length).2 r' = _
        rw [momentaryH_read rate filters _ h.length r' (by simp; omega)]
        exact readA_append hr' _

theorem integratedH_len (rate : ℕ) (filters : List Biquad) (h : Heap)
    (r : ℕ) : h.length ≤ (integrated_loudnessH rate filters h r).2.length := by
  simp only [integrated_loudnessH, allocA]
  cases hv : valid_audio (readA (h ++ [readA h r]) h.length) with
  | error e =>
    show h.length ≤ (h ++ [readA h r]).length
    simp
  | ok u =>
    cases u
    have hlen := momentaryH_len rate filters (h ++ [readA h r]) h.length
    have hlen2 : h.length ≤ (h ++ [readA h r]).length := by simp
    cases hm1 : (momentary_loudnessH rate filters (h ++ [readA h r])
        h.length).1 with
    | error e => exact le_trans hlen2 hlen
    | ok mres =>
      cases mres with
      | multi m => exact le_trans hlen2 hlen
      | single l z => exact le_trans hlen2 hlen

theorem measure_loudness_err {rate : ℕ} {filters : List Biquad}
    {a : NpAudio} {thr : ℝ} {e : Err} (hv : valid_audio a = .error e) :
    measure_loudness rate filters a thr = .error e := by
  unfold measure_loudness
  rw [hv]
  rfl

theorem measure_loudness_pos {rate : ℕ} {filters : List Biquad}
    {a : NpAudio} {thr : ℝ} (hv : valid_audio a = .ok ())
    (hc : ((numSamples a : ℝ) > 0.4 * rate)) :
    measure_loudness rate filters a thr =
      (integrated_loudness rate filters a).map
        (fun L => max L ((thr : ℝ) : EReal)) := by
  unfold measure_loudness
  rw [hv]
  show (if ((numSamples a : ℝ) > 0.4 * rate) then _ else _) = _
  rw [if_pos hc]

theorem measure_loudness_neg {rate : ℕ} {filters : List Biquad}
    {a : NpAudio} {thr : ℝ} (hv : valid_audio a = .ok ())
    (hc : ¬ ((numSamples a : ℝ) > 0.4 * rate)) :
    measure_loudness rate filters a thr =
      (momentary_loudness rate filters a).bind (fun mres =>
        match mres with
        | .single L _ => .ok (max L ((thr : ℝ) : EReal))
        | .multi _ => .error .typeErr) := by
  unfold measure_loudness
  rw [hv]
  show (if ((numSamples a : ℝ) > 0.4 * rate) then _
    else (momentary_loudness rate filters a).bind _) = _
  rw [if_neg hc]

theorem measureH_fst (rate : ℕ) (filters : List Biquad) (h : Heap)
    (r : ℕ) (thr : ℝ) (hr : r < h.length) :
    (measure_loudnessH rate filters h r thr).1 =
      measure_loudness rate filters (readA h r) thr := by
  simp only [measure_loudnessH]
  cases hv : valid_audio (readA h r) with
  | error e =>
    rw [measure_loudness_err hv]
  | ok u =>
    cases u
    by_cases hc : ((numSamples (readA h r) : ℝ) > 0.4 * rate)
    · rw [if_pos hc, measure_loudness_pos hv hc]
      show ((integrated_loudnessH rate filters h r).1.map _) = _
      rw [integratedH_fst rate filters h r hr]
    · rw [if_neg hc, measure_loudness_neg hv hc]
      have hm := momentaryH_fst rate filters h r hr
      cases hmm : momentary_loudness rate filters (readA h r) with
      | error e =>
        rw [hmm] at hm
        rw [hm]
        rfl
      | ok mres =>
        rw [hmm] at hm
        rw [hm]
        cases mres with
        | multi m => rfl
        | single l z => rfl

theorem measureH_read (rate : ℕ) (filters : List Biquad) (h : Heap)
    (r : ℕ) (thr : ℝ) (r' : ℕ) (hr' : r' < h.length) :
    readA (measure_loudnessH rate filters h r thr).2 r' = readA h r' := by
  simp only [measure_loudnessH]
  cases hv : valid_audio (readA h r) with
  | error e => rfl
  | ok u =>
    cases u
    by_cases hc : ((numSamples (readA h r) : ℝ) > 0.4 * rate)
    · rw [if_pos hc]
      exact integratedH_read rate filters h r r' hr'
    · rw [if_neg hc]
      cases hm1 : (momentary_loudnessH rate filters h r).1 with
      | error e => exact momentaryH_read rate filters h r r' hr'
      | ok mres =>
        cases mres with
        | multi m => exact momentaryH_read rate filters h r r' hr'
        | single l z => exact momentaryH_read rate filters h r r' hr'

theorem measureH_len (rate : ℕ) (filters : List Biquad) (h : Heap)
    (r : ℕ) (thr : ℝ) :
    h.length ≤ (measure_loudnessH rate filters h r thr).2.length := by
  simp only [measure_loudnessH]
  cases hv : valid_audio (readA h r) with
  | error e => exact le_rfl
  | ok u =>
    cases u
    by_cases hc : ((numSamples (readA h r) : ℝ) > 0.4 * rate)
    · rw [if_pos hc]
      exact integratedH_len rate filters h r
    · rw [if_neg hc]
      cases hm1 : (momentary_loudnessH rate filters h r).1 with
      | error e => exact momentaryH_len rate filters h r
      | ok mres =>
        cases mres with
        | multi m => exact momentaryH_len rate filters h r
        | single l z => exact momentaryH_len rate filters h r

/-- C7: `measure_loudness` is pure.  In the store model, where the filter
pass mutates an array in place, the caller's buffer is unchanged after the
call (the mutation hits only the fresh `data.copy()`), the returned value
is a function of the buffer's content alone, and calling the function a
second time on the post-call store returns the identical value. -/
theorem C7_measure_pure (rate : ℕ) (filters : List Biquad) (h : Heap)
    (r : ℕ) (thr : ℝ) (hr : r < h.length) :
    readA (measure_loudnessH rate filters h r thr).2 r = readA h r ∧
    (measure_loudnessH rate filters h r thr).1 =
      measure_loudness rate filters (readA h r) thr ∧
    (measure_loudnessH rate filters
      (measure_loudnessH rate filters h r thr).2 r thr).1 =
      (measure_loudnessH rate filters h r thr).1 := by
  have h1 := measureH_read rate filters h r thr r hr
  have h2 := measureH_fst rate filters h r thr hr
  have hr2 : r < (measure_loudnessH rate filters h r thr).2.length :=
    lt_of_lt_of_le hr (measureH_len rate filters h r thr)
  have h3 := measureH_fst rate filters
    (measure_loudnessH rate filters h r thr).2 r thr hr2
  refine ⟨h1, h2, ?_⟩
  rw [h3, h1, h2]

/-- Witness for C7 at a concrete store: one two-sample mono buffer. -/
theorem C7_measure_pure_witness :
    readA (measure_loudnessH 10 idCascade [monoNp [1, 1]] 0 (-70)).2 0 =
      readA [monoNp [1, 1]] 0 ∧
    (measure_loudnessH 10 idCascade
      (measure_loudnessH 10 idCascade [monoNp [1, 1]] 0 (-70)).2 0 (-70)).1 =
      (measure_loudnessH 10 idCascade [monoNp [1, 1]] 0 (-70)).1 := by
  have h := C7_measure_pure 10 idCascade [monoNp [1, 1]] 0 (-70)
    (by norm_num)
  exact ⟨h.1, h.2.2⟩

theorem pytrunc_intCast (n : ℤ) : pytrunc ((n : ℝ)) = n := by
  unfold pytrunc
  by_cases h : (0 : ℝ) ≤ (n : ℝ)
  · rw [if_pos h, Int.floor_intCast]
  · rw [if_neg h]
    rw [show (-(n : ℝ)) = (((-n : ℤ)) : ℝ) from by push_cast; ring]
    rw [Int.floor_intCast]
    ring

/-- At rate 10, block `j` starts at sample `j` ... -/
theorem blockLower_ten (j : ℕ) : blockLower 10 j = (j : ℤ) := by
  unfold blockLower
  rw [show (0.4 * ((j : ℝ) * 0.25) * ((10 : ℕ) : ℝ)) = (((j : ℤ)) : ℝ) from by
    push_cast; ring]
  exact pytrunc_intCast j

/-- ... and ends at sample `j + 4` (0.4 s at 10 Hz). -/
theorem blockUpper_ten (j : ℕ) : blockUpper 10 j = (j : ℤ) + 4 := by
  unfold blockUpper
  rw [show (0.4 * ((j : ℝ) * 0.25 + 1) * ((10 : ℕ) : ℝ)) =
      (((j : ℤ) + 4 : ℤ) : ℝ) from by push_cast; ring]
  rw [pytrunc_intCast]

theorem mkLoudness_pos_val {s : ℝ} (hs : 0 < s) :
    mkLoudness s = ((-0.691 + 10 * Real.logb 10 s : ℝ) : EReal) := by
  unfold mkLoudness
  rw [if_neg (not_le.mpr hs)]

theorem mkLoudness_one : mkLoudness 1 = ((-0.691 : ℝ) : EReal) := by
  rw [mkLoudness_pos_val one_pos, Real.logb_one]
  norm_num

theorem neg70_lt_mkLoudness {s : ℝ} (hs : 1 / 10 ≤ s) :
    ((-70 : ℝ) : EReal) < mkLoudness s := by
  have hs0 : (0 : ℝ) < s := lt_of_lt_of_le (by norm_num) hs
  rw [mkLoudness_pos_val hs0]
  rw [EReal.coe_lt_coe_iff]
  have hlogb : (-1 : ℝ) ≤ Real.logb 10 s := by
    have h1 : Real.logb 10 (1 / 10) = -1 := by
      rw [show (1 : ℝ) / 10 = 10⁻¹ from by norm_num, Real.logb_inv,
        Real.logb_self_eq_one (by norm_num)]
    rw [← h1]
    exact Real.logb_le_logb_of_le (by norm_num) (by norm_num) hs
  linarith

theorem mkLoudness_strictMono {s t : ℝ} (hs : 0 < s) (hst : s < t) :
    mkLoudness s < mkLoudness t := by
  rw [mkLoudness_pos_val hs, mkLoudness_pos_val (lt_trans hs hst)]
  rw [EReal.coe_lt_coe_iff]
  have := Real.logb_lt_logb (by norm_num : (1 : ℝ) < 10) hs hst
  linarith

/-- The relative threshold `Gamma_r = mkLoudness S - 10` lies strictly
below the loudness of any block with mean square `z > S / 10`. -/
theorem gammaR_lt_mkLoudness {S z : ℝ} (hS : 0 < S) (hz : 0 < z)
    (h : S < 10 * z) :
    mkLoudness S - ((10 : ℝ) : EReal) < mkLoudness z := by
  rw [mkLoudness_pos_val hS, mkLoudness_pos_val hz]
  rw [show ((-0.691 + 10 * Real.logb 10 S : ℝ) : EReal) - ((10 : ℝ) : EReal)
      = ((-0.691 + 10 * Real.logb 10 S - 10 : ℝ) : EReal) from by
    rw [← EReal.coe_sub]]
  rw [EReal.coe_lt_coe_iff]
  have hlog : Real.logb 10 S < Real.logb 10 z + 1 := by
    have h10 : Real.logb 10 (10 * z) = 1 + Real.logb 10 z := by
      rw [Real.logb_mul (by norm_num) (ne_of_gt hz),
        Real.logb_self_eq_one (by norm_num)]
    have := Real.logb_lt_logb (by norm_num : (1 : ℝ) < 10) hS h
    rw [h10] at this
    linarith
  linarith

theorem not_le_bot70 : ¬ ((-70 : ℝ) : EReal) ≤ (⊥ : EReal) := by
  intro h
  exact EReal.coe_ne_bot _ (le_bot_iff.mp h)

theorem numBlocksZ_5_10 : numBlocksZ 5 10 = 2 := by
  unfold numBlocksZ
  rw [show ((((5 : ℕ) : ℝ) / ((10 : ℕ) : ℝ) - 0.4) / (0.4 * 0.25)) =
    (((1 : ℤ)) : ℝ) from by push_cast; norm_num]
  rw [pyround_intCast]
  norm_num

theorem numBlocksZ_9_10 : numBlocksZ 9 10 = 6 := by
  unfold numBlocksZ
  rw [show ((((9 : ℕ) : ℝ) / ((10 : ℕ) : ℝ) - 0.4) / (0.4 * 0.25)) =
    (((5 : ℤ)) : ℝ) from by push_cast; norm_num]
  rw [pyround_intCast]
  norm_num

theorem blockZ_b1_0 : blockZ 10 (List.replicate 5 (1 : ℝ)) 0 = 1 := by
  unfold blockZ
  rw [blockLower_ten, blockUpper_ten]
  rw [show pySlice (List.replicate 5 (1 : ℝ)) (((0 : ℕ) : ℤ))
    ((((0 : ℕ) : ℤ)) + 4) = [1, 1, 1, 1] from rfl]
  norm_num

theorem blockZ_b1_1 : blockZ 10 (List.replicate 5 (1 : ℝ)) 1 = 1 := by
  unfold blockZ
  rw [blockLower_ten, blockUpper_ten]
  rw [show pySlice (List.replicate 5 (1 : ℝ)) (((1 : ℕ) : ℤ))
    ((((1 : ℕ) : ℤ)) + 4) = [1, 1, 1, 1] from rfl]
  norm_num

theorem blockZ_b2_0 : blockZ 10 (List.replicate 5 (1 : ℝ) ++ zeros 4) 0 = 1 := by
  unfold blockZ
  rw [blockLower_ten, blockUpper_ten]
  rw [show pySlice (List.replicate 5 (1 : ℝ) ++ zeros 4) (((0 : ℕ) : ℤ))
    ((((0 : ℕ) : ℤ)) + 4) = [1, 1, 1, 1] from rfl]
  norm_num

theorem blockZ_b2_1 : blockZ 10 (List.replicate 5 (1 : ℝ) ++ zeros 4) 1 = 1 := by
  unfold blockZ
  rw [blockLower_ten, blockUpper_ten]
  rw [show pySlice (List.replicate 5 (1 : ℝ) ++ zeros 4) (((1 : ℕ) : ℤ))
    ((((1 : ℕ) : ℤ)) + 4) = [1, 1, 1, 1] from rfl]
  norm_num

theorem blockZ_b2_2 : blockZ 10 (List.replicate 5 (1 : ℝ) ++ zeros 4) 2
    = 3 / 4 := by
  unfold blockZ
  rw [blockLower_ten, blockUpper_ten]
  rw [show pySlice (List.replicate 5 (1 : ℝ) ++ zeros 4) (((2 : ℕ) : ℤ))
    ((((2 : ℕ) : ℤ)) + 4) = [1, 1, 1, 0] from rfl]
  norm_num

theorem blockZ_b2_3 : blockZ 10 (List.replicate 5 (1 : ℝ) ++ zeros 4) 3
    = 1 / 2 := by
  unfold blockZ
  rw [blockLower_ten, blockUpper_ten]
  rw [show pySlice (List.replicate 5 (1 : ℝ) ++ zeros 4) (((3 : ℕ) : ℤ))
    ((((3 : ℕ) : ℤ)) + 4) = [1, 1, 0, 0] from rfl]
  norm_num

theorem blockZ_b2_4 : blockZ 10 (List.replicate 5 (1 : ℝ) ++ zeros 4) 4
    = 1 / 4 := by
  unfold blockZ
  rw [blockLower_ten, blockUpper_ten]
  rw [show pySlice (List.replicate 5 (1 : ℝ) ++ zeros 4) (((4 : ℕ) : ℤ))
    ((((4 : ℕ) : ℤ)) + 4) = [1, 0, 0, 0] from rfl]
  norm_num

theorem blockZ_b2_5 : blockZ 10 (List.replicate 5 (1 : ℝ) ++ zeros 4) 5
    = 0 := by
  unfold blockZ
  rw [blockLower_ten, blockUpper_ten]
  rw [show pySlice (List.replicate 5 (1 : ℝ) ++ zeros 4) (((5 : ℕ) : ℤ))
    ((((5 : ℕ) : ℤ)) + 4) = [0, 0, 0, 0] from rfl]
  norm_num

theorem momZ_b1 : momentaryZ 10 5 [List.replicate 5 (1 : ℝ)] = [[1, 1]] := by
  unfold momentaryZ
  rw [numBlocksZ_5_10]
  rw [show ((2 : ℤ)).toNat = 2 from rfl, show List.range 2 = [0, 1] from rfl]
  simp only [List.map_cons, List.map_nil]
  rw [blockZ_b1_0, blockZ_b1_1]

theorem momZ_b2 : momentaryZ 10 9 [List.replicate 5 (1 : ℝ) ++ zeros 4] =
    [[1, 1, 3 / 4, 1 / 2, 1 / 4, 0]] := by
  unfold momentaryZ
  rw [numBlocksZ_9_10]
  rw [show ((6 : ℤ)).toNat = 6 from rfl,
    show List.range 6 = [0, 1, 2, 3, 4, 5] from rfl]
  simp only [List.map_cons, List.map_nil]
  rw [blockZ_b2_0, blockZ_b2_1, blockZ_b2_2, blockZ_b2_3, blockZ_b2_4,
    blockZ_b2_5]

theorem Gain_zero : Gain 0 = 1 := by
  norm_num [Gain, Glist]

theorem momLs_b1 : momentaryLs 10 5 [List.replicate 5 (1 : ℝ)] =
    [((-0.691 : ℝ) : EReal), ((-0.691 : ℝ) : EReal)] := by
  unfold momentaryLs
  rw [momZ_b1, numBlocksZ_5_10]
  rw [show ((2 : ℤ)).toNat = 2 from rfl, show List.range 2 = [0, 1] from rfl]
  rw [show ([[1, 1]] : List (List ℝ)).enum = [(0, [1, 1])] from rfl]
  simp only [List.map_cons, List.map_nil, List.sum_cons, List.sum_nil]
  rw [Gain_zero, show ([1, 1] : List ℝ).getD 0 0 = 1 from rfl,
    show ([1, 1] : List ℝ).getD 1 0 = 1 from rfl]
  rw [show (1 : ℝ) * 1 + 0 = 1 from by norm_num, mkLoudness_one]

theorem momLs_b2 : momentaryLs 10 9 [List.replicate 5 (1 : ℝ) ++ zeros 4] =
    [((-0.691 : ℝ) : EReal), ((-0.691 : ℝ) : EReal), mkLoudness (3 / 4),
      mkLoudness (1 / 2), mkLoudness (1 / 4), (⊥ : EReal)] := by
  unfold momentaryLs
  rw [momZ_b2, numBlocksZ_9_10]
  rw [show ((6 : ℤ)).toNat = 6 from rfl,
    show List.range 6 = [0, 1, 2, 3, 4, 5] from rfl]
  rw [show ([[1, 1, 3 / 4, 1 / 2, 1 / 4, 0]] : List (List ℝ)).enum =
    [(0, [1, 1, 3 / 4, 1 / 2, 1 / 4, 0])] from rfl]
  simp only [List.map_cons, List.map_nil, List.sum_cons, List.sum_nil]
  rw [show ([1, 1, 3 / 4, 1 / 2, 1 / 4, 0] : List ℝ).getD 0 0 = 1 from rfl,
    show ([1, 1, 3 / 4, 1 / 2, 1 / 4, 0] : List ℝ).getD 1 0 = 1 from rfl,
    show ([1, 1, 3 / 4, 1 / 2, 1 / 4, 0] : List ℝ).getD 2 0 = 3 / 4 from rfl,
    show ([1, 1, 3 / 4, 1 / 2, 1 / 4, 0] : List ℝ).getD 3 0 = 1 / 2 from rfl,
    show ([1, 1, 3 / 4, 1 / 2, 1 / 4, 0] : List ℝ).getD 4 0 = 1 / 4 from rfl,
    show ([1, 1, 3 / 4, 1 / 2, 1 / 4, 0] : List ℝ).getD 5 0 = 0 from rfl,
    Gain_zero]
  rw [show (1 : ℝ) * 1 + 0 = 1 from by norm_num, mkLoudness_one]
  rw [show (1 : ℝ) * (3 / 4) + 0 = 3 / 4 from by norm_num]
  rw [show (1 : ℝ) * (1 / 2) + 0 = 1 / 2 from by norm_num]
  rw [show (1 : ℝ) * (1 / 4) + 0 = 1 / 4 from by norm_num]
  rw [show (1 : ℝ) * 0 + 0 = 0 from by norm_num, mkLoudness_zero]

theorem neg70_le_c : ((-70 : ℝ) : EReal) ≤ ((-0.691 : ℝ) : EReal) := by
  rw [EReal.coe_le_coe_iff]; norm_num

theorem neg70_lt_c : ((-70 : ℝ) : EReal) < ((-0.691 : ℝ) : EReal) := by
  rw [EReal.coe_lt_coe_iff]; norm_num

theorem gateAbs_b1 : gateAbs [((-0.691 : ℝ) : EReal), ((-0.691 : ℝ) : EReal)]
    = [0, 1] := by
  unfold gateAbs
  rw [show ([((-0.691 : ℝ) : EReal), ((-0.691 : ℝ) : EReal)]).enum =
    [(0, ((-0.691 : ℝ) : EReal)), (1, ((-0.691 : ℝ) : EReal))] from rfl]
  simp only [filterP]
  rw [if_pos neg70_le_c, if_pos neg70_le_c]
  rfl

theorem gateAbs_b2 : gateAbs [((-0.691 : ℝ) : EReal), ((-0.691 : ℝ) : EReal),
    mkLoudness (3 / 4), mkLoudness (1 / 2), mkLoudness (1 / 4), (⊥ : EReal)]
    = [0, 1, 2, 3, 4] := by
  have h34 : ((-70 : ℝ) : EReal) ≤ mkLoudness (3 / 4) :=
    le_of_lt (neg70_lt_mkLoudness (by norm_num))
  have h12 : ((-70 : ℝ) : EReal) ≤ mkLoudness (1 / 2) :=
    le_of_lt (neg70_lt_mkLoudness (by norm_num))
  have h14 : ((-70 : ℝ) : EReal) ≤ mkLoudness (1 / 4) :=
    le_of_lt (neg70_lt_mkLoudness (by norm_num))
  unfold gateAbs
  rw [show ([((-0.691 : ℝ) : EReal), ((-0.691 : ℝ) : EReal),
      mkLoudness (3 / 4), mkLoudness (1 / 2), mkLoudness (1 / 4),
      (⊥ : EReal)]).enum =
    [(0, ((-0.691 : ℝ) : EReal)), (1, ((-0.691 : ℝ) : EReal)),
      (2, mkLoudness (3 / 4)), (3, mkLoudness (1 / 2)),
      (4, mkLoudness (1 / 4)), (5, (⊥ : EReal))] from rfl]
  simp only [filterP]
  rw [if_pos neg70_le_c, if_pos neg70_le_c, if_pos h34, if_pos h12,
    if_pos h14, if_neg not_le_bot70]
  rfl

theorem zAvg_b1 : zAvgGated (momentaryMultiOf 10 5 [List.replicate 5 (1 : ℝ)])
    [0, 1] 0 = 1 := by
  unfold zAvgGated
  rw [show (momentaryMultiOf 10 5 [List.replicate 5 (1 : ℝ)]).z =
    momentaryZ 10 5 [List.replicate 5 (1 : ℝ)] from rfl, momZ_b1]
  rw [show (([[1, 1]] : List (List ℝ)).getD 0 []) = [1, 1] from rfl]
  simp only [List.map_cons, List.map_nil]
  rw [show ([1, 1] : List ℝ).getD 0 0 = 1 from rfl,
    show ([1, 1] : List ℝ).getD 1 0 = 1 from rfl]
  norm_num [npMean]

theorem zAvg_b2 : zAvgGated (momentaryMultiOf 10 9
    [List.replicate 5 (1 : ℝ) ++ zeros 4]) [0, 1, 2, 3, 4] 0 = 7 / 10 := by
  unfold zAvgGated
  rw [show (momentaryMultiOf 10 9 [List.replicate 5 (1 : ℝ) ++ zeros 4]).z =
    momentaryZ 10 9 [List.replicate 5 (1 : ℝ) ++ zeros 4] from rfl, momZ_b2]
  rw [show (([[1, 1, 3 / 4, 1 / 2, 1 / 4, 0]] : List (List ℝ)).getD 0 []) =
    [1, 1, 3 / 4, 1 / 2, 1 / 4, 0] from rfl]
  simp only [List.map_cons, List.map_nil]
  rw [show ([1, 1, 3 / 4, 1 / 2, 1 / 4, 0] : List ℝ).getD 0 0 = 1 from rfl,
    show ([1, 1, 3 / 4, 1 / 2, 1 / 4, 0] : List ℝ).getD 1 0 = 1 from rfl,
    show ([1, 1, 3 / 4, 1 / 2, 1 / 4, 0] : List ℝ).getD 2 0 = 3 / 4 from rfl,
    show ([1, 1, 3 / 4, 1 / 2, 1 / 4, 0] : List ℝ).getD 3 0 = 1 / 2 from rfl,
    show ([1, 1, 3 / 4, 1 / 2, 1 / 4, 0] : List ℝ).getD 4 0 = 1 / 4 from rfl]
  norm_num [npMean]

theorem gammaR_b1 : gammaROf 1 (momentaryMultiOf 10 5
    [List.replicate 5 (1 : ℝ)]) =
    some (mkLoudness 1 - ((10 : ℝ) : EReal)) := by
  unfold gammaROf
  rw [show (momentaryMultiOf 10 5 [List.replicate 5 (1 : ℝ)]).l =
    momentaryLs 10 5 [List.replicate 5 (1 : ℝ)] from rfl, momLs_b1,
    gateAbs_b1]
  rw [if_neg (by simp : ¬([0, 1] : List ℕ) = [])]
  rw [show List.range 1 = [0] from rfl]
  simp only [List.map_cons, List.map_nil, List.sum_cons, List.sum_nil]
  rw [Gain_zero, zAvg_b1, show (1 : ℝ) * 1 + 0 = 1 from by norm_num]

theorem gammaR_b2 : gammaROf 1 (momentaryMultiOf 10 9
    [List.replicate 5 (1 : ℝ) ++ zeros 4]) =
    some (mkLoudness (7 / 10) - ((10 : ℝ) : EReal)) := by
  unfold gammaROf
  rw [show (momentaryMultiOf 10 9 [List.replicate 5 (1 : ℝ) ++ zeros 4]).l =
    momentaryLs 10 9 [List.replicate 5 (1 : ℝ) ++ zeros 4] from rfl, momLs_b2,
    gateAbs_b2]
  rw [if_neg (by simp : ¬([0, 1, 2, 3, 4] : List ℕ) = [])]
  rw [show List.range 1 = [0] from rfl]
  simp only [List.map_cons, List.map_nil, List.sum_cons, List.sum_nil]
  rw [Gain_zero, zAvg_b2,
    show (1 : ℝ) * (7 / 10) + 0 = 7 / 10 from by norm_num]

theorem gateRel_b1 : gateRel [((-0.691 : ℝ) : EReal), ((-0.691 : ℝ) : EReal)]
    (some (mkLoudness 1 - ((10 : ℝ) : EReal))) = [0, 1] := by
  have hg : mkLoudness 1 - ((10 : ℝ) : EReal) < ((-0.691 : ℝ) : EReal) := by
    have := gammaR_lt_mkLoudness (S := 1) (z := 1) one_pos one_pos
      (by norm_num)
    nth_rewrite 2 [mkLoudness_one] at this
    exact this
  unfold gateRel
  rw [show ([((-0.691 : ℝ) : EReal), ((-0.691 : ℝ) : EReal)]).enum =
    [(0, ((-0.691 : ℝ) : EReal)), (1, ((-0.691 : ℝ) : EReal))] from rfl]
  simp only [filterP]
  rw [if_pos ⟨hg, neg70_lt_c⟩, if_pos ⟨hg, neg70_lt_c⟩]
  rfl

theorem gateRel_b2 : gateRel [((-0.691 : ℝ) : EReal), ((-0.691 : ℝ) : EReal),
    mkLoudness (3 / 4), mkLoudness (1 / 2), mkLoudness (1 / 4), (⊥ : EReal)]
    (some (mkLoudness (7 / 10) - ((10 : ℝ) : EReal))) = [0, 1, 2, 3, 4] := by
  have hgc : mkLoudness (7 / 10) - ((10 : ℝ) : EReal) <
      ((-0.691 : ℝ) : EReal) := by
    have := gammaR_lt_mkLoudness (S := 7 / 10) (z := 1) (by norm_num) one_pos
      (by norm_num)
    rwa [mkLoudness_one] at this
  have hg34 : mkLoudness (7 / 10) - ((10 : ℝ) : EReal) < mkLoudness (3 / 4) :=
    gammaR_lt_mkLoudness (by norm_num) (by norm_num) (by norm_num)
  have hg12 : mkLoudness (7 / 10) - ((10 : ℝ) : EReal) < mkLoudness (1 / 2) :=
    gammaR_lt_mkLoudness (by norm_num) (by norm_num) (by norm_num)
  have hg14 : mkLoudness (7 / 10) - ((10 : ℝ) : EReal) < mkLoudness (1 / 4) :=
    gammaR_lt_mkLoudness (by norm_num) (by norm_num) (by norm_num)
  have h7034 : ((-70 : ℝ) : EReal) < mkLoudness (3 / 4) :=
    neg70_lt_mkLoudness (by norm_num)
  have h7012 : ((-70 : ℝ) : EReal) < mkLoudness (1 / 2) :=
    neg70_lt_mkLoudness (by norm_num)
  have h7014 : ((-70 : ℝ) : EReal) < mkLoudness (1 / 4) :=
    neg70_lt_mkLoudness (by norm_num)
  unfold gateRel
  rw [show ([((-0.691 : ℝ) : EReal), ((-0.691 : ℝ) : EReal),
      mkLoudness (3 / 4), mkLoudness (1 / 2), mkLoudness (1 / 4),
      (⊥ : EReal)]).enum =
    [(0, ((-0.691 : ℝ) : EReal)), (1, ((-0.691 : ℝ) : EReal)),
      (2, mkLoudness (3 / 4)), (3, mkLoudness (1 / 2)),
      (4, mkLoudness (1 / 4)), (5, (⊥ : EReal))] from rfl]
  simp only [filterP]
  rw [if_pos ⟨hgc, neg70_lt_c⟩, if_pos ⟨hgc, neg70_lt_c⟩,
    if_pos ⟨hg34, h7034⟩, if_pos ⟨hg12, h7012⟩, if_pos ⟨hg14, h7014⟩,
    if_neg (fun h => not_lt_bot h.2)]
  rfl

theorem gating_b1 : gatingOf 1 (momentaryMultiOf 10 5
    [List.replicate 5 (1 : ℝ)]) = ((-0.691 : ℝ) : EReal) := by
  unfold gatingOf
  simp only [gammaR_b1,
    show (momentaryMultiOf 10 5 [List.replicate 5 (1 : ℝ)]).l =
      momentaryLs 10 5 [List.replicate 5 (1 : ℝ)] from rfl,
    momLs_b1, gateRel_b1]
  rw [show List.range 1 = [0] from rfl]
  simp only [List.map_cons, List.map_nil, List.sum_cons, List.sum_nil]
  rw [if_neg (by simp : ¬([0, 1] : List ℕ) = []), Gain_zero, zAvg_b1]
  rw [show (1 : ℝ) * 1 + 0 = 1 from by norm_num, mkLoudness_one]

theorem gating_b2 : gatingOf 1 (momentaryMultiOf 10 9
    [List.replicate 5 (1 : ℝ) ++ zeros 4]) = mkLoudness (7 / 10) := by
  unfold gatingOf
  simp only [gammaR_b2,
    show (momentaryMultiOf 10 9 [List.replicate 5 (1 : ℝ) ++ zeros 4]).l =
      momentaryLs 10 9 [List.replicate 5 (1 : ℝ) ++ zeros 4] from rfl,
    momLs_b2, gateRel_b2]
  rw [show List.range 1 = [0] from rfl]
  simp only [List.map_cons, List.map_nil, List.sum_cons, List.sum_nil]
  rw [if_neg (by simp : ¬([0, 1, 2, 3, 4] : List ℕ) = []), Gain_zero,
    zAvg_b2]
  rw [show (1 : ℝ) * (7 / 10) + 0 = 7 / 10 from by norm_num]

theorem filterP_mem {α : Type} {p : α → Prop} {l : List α} {a : α}
    (h : a ∈ filterP p l) : a ∈ l ∧ p a := by
  induction l with
  | nil =>
    simp only [filterP] at h
    exact absurd h (List.not_mem_nil a)
  | cons x xs ih =>
    simp only [filterP] at h
    by_cases hx : p x
    · rw [if_pos hx] at h
      rcases List.mem_cons.mp h with h1 | h2
      · exact ⟨by rw [h1]; exact List.mem_cons_self x xs, by rw [h1]; exact hx⟩
      · obtain ⟨hm, hp⟩ := ih h2
        exact ⟨List.mem_cons_of_mem x hm, hp⟩
    · rw [if_neg hx] at h
      obtain ⟨hm, hp⟩ := ih h
      exact ⟨List.mem_cons_of_mem x hm, hp⟩

theorem mem_enumFrom_eq {α : Type} {l : List α} :
    ∀ {n : ℕ} {pr : ℕ × α}, pr ∈ l.enumFrom n →
      ∃ k, ∃ hk : k < l.length, pr = (n + k, l.get ⟨k, hk⟩) := by
  induction l with
  | nil =>
    intro n pr h
    simp [List.enumFrom] at h
  | cons a xs ih =>
    intro n pr h
    rw [List.enumFrom] at h
    rcases List.mem_cons.mp h with h1 | h2
    · refine ⟨0, by simp, ?_⟩
      rw [h1]
      rfl
    · obtain ⟨k, hk, hpr⟩ := ih h2
      refine ⟨k + 1, Nat.succ_lt_succ hk, ?_⟩
      rw [hpr, show n + 1 + k = n + (k + 1) from by omega]
      rfl

/-- C8 counterexample: appending four all-zero samples (one extra silent
block plus straddling blocks) to a 5-sample all-ones buffer at rate 10
changes the value returned by `measure_loudness`: the straddling blocks have
diluted but still audible energy, pass both gates, and pull the gated
average from 1 down to 7/10. -/
theorem C8_append_silence_counterexample :
    measureMonoE 10 idCascade (List.replicate 5 (1 : ℝ) ++ zeros 4) (-70) ≠
      measureMonoE 10 idCascade (List.replicate 5 (1 : ℝ)) (-70) := by
  have h1 : measureMonoE 10 idCascade (List.replicate 5 (1 : ℝ)) (-70) =
      .ok (max (gatingOf 1 (momentaryMultiOf 10
        (List.replicate 5 (1 : ℝ)).length
        [applyFilters idCascade (List.replicate 5 (1 : ℝ))]))
        (((-70 : ℝ)) : EReal)) :=
    measureMonoE_long 10 idCascade _ _ (by norm_num)
  have h2 : measureMonoE 10 idCascade
      (List.replicate 5 (1 : ℝ) ++ zeros 4) (-70) =
      .ok (max (gatingOf 1 (momentaryMultiOf 10
        (List.replicate 5 (1 : ℝ) ++ zeros 4).length
        [applyFilters idCascade (List.replicate 5 (1 : ℝ) ++ zeros 4)]))
        (((-70 : ℝ)) : EReal)) :=
    measureMonoE_long 10 idCascade _ _ (by
      rw [show (List.replicate 5 (1 : ℝ) ++ zeros 4).length = 9 from rfl]
      norm_num)
  rw [applyFilters_idCascade,
    show (List.replicate 5 (1 : ℝ)).length = 5 from rfl, gating_b1] at h1
  rw [applyFilters_idCascade,
    show (List.replicate 5 (1 : ℝ) ++ zeros 4).length = 9 from rfl,
    gating_b2] at h2
  rw [max_eq_left neg70_le_c] at h1
  rw [max_eq_left (le_of_lt (neg70_lt_mkLoudness
    (by norm_num : (1 : ℝ) / 10 ≤ 7 / 10)))] at h2
  rw [h1, h2]
  intro hcontra
  have heq : mkLoudness (7 / 10) = ((-0.691 : ℝ) : EReal) :=
    Except.ok.inj hcontra
  rw [← mkLoudness_one] at heq
  exact absurd heq
    (ne_of_lt (mkLoudness_strictMono (by norm_num) (by norm_num)))

/-- C8 (amended): a fully silent gating block — whose mean square is 0 and
whose momentary loudness is therefore the float `-inf` (`⊥`), below the
-70 LKFS absolute gate — is excluded from both gated averages of
`_integrated_loudness` (the absolute gate `J_g` of eq. 5 and the
relative-and-absolute gate of eq. 7, for every relative threshold).
The original claim that appending silent blocks never changes the value
returned by `measure_loudness` is false: appended silence also creates
straddling blocks of diluted positive energy that pass both gates. -/
theorem C8_silent_blocks_gated_out (l : List EReal) (j : ℕ)
    (hj : j < l.length) (hbot : l.get ⟨j, hj⟩ = ⊥) :
    (∀ s : ℝ, s ≤ 0 → mkLoudness s = ⊥) ∧
    j ∉ gateAbs l ∧ ∀ g : Option EReal, j ∉ gateRel l g := by
  refine ⟨?_, ?_, ?_⟩
  · intro s hs
    unfold mkLoudness
    rw [if_pos hs]
  · intro hmem
    unfold gateAbs at hmem
    obtain ⟨pr, hpr, hfst⟩ := List.mem_map.mp hmem
    obtain ⟨hin, hp⟩ := filterP_mem hpr
    simp only [List.enum] at hin
    obtain ⟨k, hk, hpk⟩ := mem_enumFrom_eq hin
    subst hpk
    dsimp only at hfst hp
    have hkj : k = j := by omega
    subst hkj
    have hp' : ((-70 : ℝ) : EReal) ≤ l.get ⟨k, hj⟩ := hp
    rw [hbot] at hp'
    exact not_le_bot70 hp'
  · intro g hmem
    unfold gateRel at hmem
    obtain ⟨pr, hpr, hfst⟩ := List.mem_map.mp hmem
    obtain ⟨hin, hp⟩ := filterP_mem hpr
    simp only [List.enum] at hin
    obtain ⟨k, hk, hpk⟩ := mem_enumFrom_eq hin
    subst hpk
    dsimp only at hfst hp
    have hkj : k = j := by omega
    subst hkj
    have hp' : ((-70 : ℝ) : EReal) < l.get ⟨k, hj⟩ := hp.2
    rw [hbot] at hp'
    exact not_lt_bot hp'

theorem C8_silent_blocks_gated_out_witness :
    mkLoudness 0 = ⊥ ∧
    0 ∉ gateAbs [(⊥ : EReal)] ∧ 0 ∉ gateRel [(⊥ : EReal)] none :=
  ⟨(C8_silent_blocks_gated_out [(⊥ : EReal)] 0 (by simp) rfl).1 0 le_rfl,
   (C8_silent_blocks_gated_out [(⊥ : EReal)] 0 (by simp) rfl).2.1,
   (C8_silent_blocks_gated_out [(⊥ : EReal)] 0 (by simp) rfl).2.2 none⟩

end TextAlignSynth
